import Mathlib

/-!
# NanoForge: verification of the compilation-execution-adaptation core

Shallow embedding of the NanoForge IR, optimizer, liveness analysis,
linear-scan register allocator, compiler emission sequence, dual-mapped
executable memory request sequence, and the contextual bandit, translated
from the Rust sources (`src/nanoforge/src/{ir,optimizer,compiler,
jit_memory,ai_optimizer}.rs`).

Conventions:
* Machine integers (`u64`, `usize`, `u8`) are modelled as `Nat`; `i32`/`i64`
  values as `Int` (the claims under study do not depend on overflow).
* `f64` bandit parameters are modelled as exact rationals `ℚ`.
* Rust panics (index out of bounds, arithmetic underflow, explicit
  `panic!`, `unwrap` on `None`) are modelled as `Except.error .panic`;
  an exhausted iteration budget for the optimizer's `while changed`
  fixpoint loop is `Except.error .fuelOut`.
-/

namespace NanoForge

/-- `ir.rs`: tagged operand values. -/
inductive Operand where
  | Reg (id : Nat)
  | Ymm (id : Nat)
  | Imm (val : Int)
  | Label (name : String)
  deriving DecidableEq, Repr

/-- `ir.rs`: opcodes of the three-address IR. -/
inductive Opcode where
  | Mov | Add | Mul | Sub | Ret | Label | Jmp
  | Alloc | Free | Load | Store
  | SetArg (i : Nat)
  | Jnz | Cmp | Je | Jne | Jl | Jle | Jg | Jge
  | Call
  | LoadArg (i : Nat)
  | VLoad | VStore | VAdd
  deriving DecidableEq, Repr

/-- `ir.rs`: an opcode plus up to three optional operands. -/
structure Instruction where
  op : Opcode
  dest : Option Operand := none
  src1 : Option Operand := none
  src2 : Option Operand := none
  deriving DecidableEq, Repr

/-- `ir.rs`: a named function with parameters and an instruction list. -/
structure Function where
  name : String
  args : List String
  instructions : List Instruction
  deriving DecidableEq, Repr

/-- `ir.rs`: an ordered sequence of functions. -/
structure Program where
  functions : List Function
  deriving DecidableEq, Repr

/-- Abnormal outcomes of embedded Rust code: a panic/abort, or the
iteration budget given to a modelled unbounded loop ran out. -/
inductive Aborted where
  | panic
  | fuelOut
  deriving DecidableEq, Repr

/-! ## `ai_optimizer.rs`: size buckets and bandits -/

/-- `ai_optimizer.rs` `SizeBucket`: partition of input sizes. -/
inductive SizeBucket where
  | Tiny | Small | Medium | Large | Huge
  deriving DecidableEq, Repr

/-- `SizeBucket::from_size`: classify an input size (u64) into a bucket. -/
def SizeBucket.from_size (n : Nat) : SizeBucket :=
  if n ≤ 31 then .Tiny
  else if n ≤ 255 then .Small
  else if n ≤ 4095 then .Medium
  else if n ≤ 65535 then .Large
  else .Huge

/-- `ai_optimizer.rs` `VariantBandit`: per-arm Beta parameters and
selection counters (`f64` parameters modelled as exact rationals). -/
structure VariantBandit where
  num_variants : Nat
  successes : List ℚ
  failures : List ℚ
  variant_names : List String
  selections : List Nat
  deriving DecidableEq, Repr

/-- `VariantBandit::new`: uniform `Beta(1,1)` priors, zero selections. -/
def VariantBandit.new (variant_names : List String) : VariantBandit :=
  let n := variant_names.length
  { num_variants := n
    successes := List.replicate n 1
    failures := List.replicate n 1
    variant_names := variant_names
    selections := List.replicate n 0 }

/-- `VariantBandit::update`: out-of-range indices return early; otherwise
bump α or β of the selected arm by 1. -/
def VariantBandit.update (b : VariantBandit) (variant_idx : Nat)
    (was_fastest : Bool) : VariantBandit :=
  if variant_idx ≥ b.num_variants then b
  else if was_fastest then
    { b with successes := b.successes.modify (· + 1) variant_idx }
  else
    { b with failures := b.failures.modify (· + 1) variant_idx }

/-- `VariantBandit::update_with_performance`: reward
`best_cycles / cycles` (or `0` when `cycles = 0`), added to α, with
`1 - reward` added to β.  Out-of-range indices return early. -/
def VariantBandit.update_with_performance (b : VariantBandit)
    (variant_idx : Nat) (cycles best_cycles : Nat) : VariantBandit :=
  if variant_idx ≥ b.num_variants then b
  else
    let performance_ratio : ℚ :=
      if cycles > 0 then (best_cycles : ℚ) / (cycles : ℚ) else 0
    { b with
      successes := b.successes.modify (· + performance_ratio) variant_idx
      failures := b.failures.modify (· + (1 - performance_ratio)) variant_idx }

/-- `ai_optimizer.rs` `OptimizationFeatures`, restricted to the fields the
bucket-selection logic reads. -/
structure OptimizationFeatures where
  input_size : Nat
  deriving DecidableEq, Repr

/-- `OptimizationFeatures::size_bucket`. -/
def OptimizationFeatures.size_bucket (f : OptimizationFeatures) : SizeBucket :=
  SizeBucket.from_size f.input_size

/-- `ai_optimizer.rs` `ContextualBandit`: one bandit per size bucket.  The
Rust `HashMap` is initialized with every bucket at construction, so it is
modelled as a total function on `SizeBucket`. -/
structure ContextualBandit where
  bandits : SizeBucket → VariantBandit
  variant_names : List String

/-- `ContextualBandit::new`. -/
def ContextualBandit.new (variant_names : List String) : ContextualBandit :=
  { bandits := fun _ => VariantBandit.new variant_names
    variant_names := variant_names }

/-- `ContextualBandit::update_with_performance`: update only the bandit of
the context's bucket. -/
def ContextualBandit.update_with_performance (cb : ContextualBandit)
    (context : OptimizationFeatures) (variant_idx : Nat)
    (cycles best_cycles : Nat) : ContextualBandit :=
  let bucket := context.size_bucket
  { cb with bandits := fun bk =>
      if bk = bucket then
        (cb.bandits bk).update_with_performance variant_idx cycles best_cycles
      else cb.bandits bk }

/-- `ContextualBandit::update`. -/
def ContextualBandit.update (cb : ContextualBandit)
    (context : OptimizationFeatures) (variant_idx : Nat)
    (was_fastest : Bool) : ContextualBandit :=
  let bucket := context.size_bucket
  { cb with bandits := fun bk =>
      if bk = bucket then (cb.bandits bk).update variant_idx was_fastest
      else cb.bandits bk }

/-! ## `optimizer.rs`: the optimization passes -/

/-- Pointwise function update (used for interpreter register/memory state). -/
def upd {α β : Type} [DecidableEq α] (f : α → β) (a : α) (b : β) : α → β :=
  fun x => if x = a then b else f x

/-- Substring test on character lists (`str::contains` for string needles). -/
def listContainsSub (p : List Char) : List Char → Bool
  | [] => p.isPrefixOf []
  | x :: xs => p.isPrefixOf (x :: xs) || listContainsSub p xs

/-- Rust `String::contains(pat)`. -/
def strContains (s pat : String) : Bool :=
  listContainsSub pat.data s.data

/-- Insert a block of instructions at position `i` (equals the Rust loop
`for (offset, instr) in body { vec.insert(i + offset, instr) }`). -/
def spliceAt {α : Type} (i : Nat) (body l : List α) : List α :=
  l.take i ++ body ++ l.drop i

/-- `Optimizer::remove_identity_moves` scanning loop: drop `Mov r, r`.
The loop index pattern (`remove` keeps `i`, otherwise `i + 1`) decreases
`l.length - i` by exactly one per iteration, so structural recursion on a
`gas` counter initialized to `l.length + 1` runs the Rust loop to its
natural exit; the `gas = 0` branch is never reached. -/
def rimLoop (gas : Nat) (l : List Instruction) (i : Nat) (changed : Bool) :
    List Instruction × Bool :=
  match gas with
  | 0 => (l, changed)
  | gas + 1 =>
    if h : i < l.length then
      match l[i].op, l[i].dest, l[i].src1 with
      | .Mov, some (.Reg d), some (.Reg s) =>
        if d = s then rimLoop gas (l.eraseIdx i) i true
        else rimLoop gas l (i + 1) changed
      | _, _, _ => rimLoop gas l (i + 1) changed
    else (l, changed)

/-- `Optimizer::remove_identity_moves`. -/
def remove_identity_moves (f : Function) : Function × Bool :=
  let (l, c) := rimLoop (f.instructions.length + 1) f.instructions 0 false
  ({ f with instructions := l }, c)

/-- `Optimizer::constant_folding` scanning loop: fuse
`Mov r, Imm v₁ ; Add r, Imm v₂` into `Mov r, Imm (v₁+v₂)`.  As in
`rimLoop`, `l.length - i` decreases by one per iteration, so a `gas` of
`l.length + 1` runs the loop to its natural exit. -/
def cfLoop (gas : Nat) (l : List Instruction) (i : Nat) (changed : Bool) :
    List Instruction × Bool :=
  match gas with
  | 0 => (l, changed)
  | gas + 1 =>
    if h : i < l.length - 1 then
      have h1 : i < l.length := by omega
      have h2 : i + 1 < l.length := by omega
      match l[i].op, l[i].dest, l[i].src1,
            l[i+1].op, l[i+1].dest, l[i+1].src1 with
      | .Mov, some (.Reg r1), some (.Imm v1),
        .Add, some (.Reg r2), some (.Imm v2) =>
        if r1 = r2 then
          cfLoop gas ((l.modify
              (fun ins => { ins with src1 := some (.Imm (v1 + v2)) }) i
            ).eraseIdx (i + 1)) i true
        else cfLoop gas l (i + 1) changed
      | _, _, _, _, _, _ => cfLoop gas l (i + 1) changed
    else (l, changed)

/-- `Optimizer::constant_folding`.  On an empty instruction list the Rust
computes `func.instructions.len() - 1` on a `usize`, which underflows and
(in release mode, after wrapping) indexes out of bounds: a panic either
way, modelled as `.error .panic`. -/
def constant_folding (f : Function) : Except Aborted (Function × Bool) :=
  match f.instructions with
  | [] => .error .panic
  | _ :: _ =>
    let (l, c) := cfLoop (f.instructions.length + 1) f.instructions 0 false
    .ok ({ f with instructions := l }, c)

/-- `Optimizer::dead_code_elimination` scanning loop: after `Ret`/`Jmp`,
remove instructions up to the next `Label`.  Same gas discipline as
`rimLoop`. -/
def dceLoop (gas : Nat) (l : List Instruction) (i : Nat)
    (deadZone changed : Bool) : List Instruction × Bool :=
  match gas with
  | 0 => (l, changed)
  | gas + 1 =>
    if h : i < l.length then
      let op := l[i].op
      let dz := if op = .Label then false else deadZone
      if dz then dceLoop gas (l.eraseIdx i) i dz true
      else
        let dz := if op = .Ret ∨ op = .Jmp then true else dz
        dceLoop gas l (i + 1) dz changed
    else (l, changed)

/-- `Optimizer::dead_code_elimination`. -/
def dead_code_elimination (f : Function) : Function × Bool :=
  let (l, c) :=
    dceLoop (f.instructions.length + 1) f.instructions 0 false false
  ({ f with instructions := l }, c)

/-- The label map of `Optimizer::loop_unrolling`: a `HashMap` built by
inserting every `Label` instruction's index, so lookup yields the *last*
index bound to a name. -/
def lookupLabelLast (l : List Instruction) (name : String) : Option Nat :=
  l.enum.foldl
    (fun acc (p : Nat × Instruction) =>
      if p.2.op = .Label ∧ p.2.dest = some (.Label name) then some p.1 else acc)
    none

/-- `Optimizer::loop_unrolling` scan: find the first unconditional
backward `Jmp` enclosing a label-free body of fewer than 50 instructions
and splice a copy of the body in front of the jump. -/
def unrollFind (l : List Instruction) :
    List (Nat × Instruction) → Option (List Instruction)
  | [] => none
  | (i, ins) :: rest =>
    match ins.op, ins.dest with
    | .Jmp, some (.Label target) =>
      match lookupLabelLast l target with
      | some startIdx =>
        if startIdx < i then
          let bodyStart := startIdx + 1
          let bodyLen := i - bodyStart
          if 0 < bodyLen ∧ bodyLen < 50 then
            let body := (l.drop bodyStart).take bodyLen
            if body.any (fun inst => inst.op = .Label) then unrollFind l rest
            else some (spliceAt i body l)
          else unrollFind l rest
        else unrollFind l rest
      | none => unrollFind l rest
    | _, _ => unrollFind l rest

/-- `Optimizer::loop_unrolling`. -/
def loop_unrolling (f : Function) : Function × Bool :=
  match unrollFind f.instructions f.instructions.enum with
  | some l' => ({ f with instructions := l' }, true)
  | none => (f, false)

/-- `Optimizer::vectorize_loop` step 1: find a `Label` whose name contains
`"loop"` followed by a `Jmp` back to it (the latest such label wins, as in
the Rust scan). -/
def findVecLoop : List (Nat × Instruction) → Option (Nat × String) →
    Option (Nat × Nat × String)
  | [], _ => none
  | (idx, ins) :: rest, st =>
    let st' :=
      match ins.op, ins.dest with
      | .Label, some (.Label name) =>
        if strContains name "loop" then some (idx, name) else st
      | _, _ => st
    match ins.op, ins.dest, st' with
    | .Jmp, some (.Label target), some (s, lname) =>
      if target = lname then some (s, idx, lname) else findVecLoop rest st'
    | _, _, _ => findVecLoop rest st'

/-- Candidate indices collected by the body scan of
`Optimizer::vectorize_loop` (first two loads, last plain add, last store,
last `Add _, Imm 1` increment). -/
structure VecScan where
  load_a : Option Nat := none
  load_b : Option Nat := none
  add_op : Option Nat := none
  store_op : Option Nat := none
  inc_op : Option Nat := none

/-- One step of the body scan of `Optimizer::vectorize_loop`. -/
def vecScanStep (l : List Instruction) (s : VecScan) (idx : Nat) : VecScan :=
  match l[idx]? with
  | none => s
  | some ins =>
    match ins.op with
    | .Load =>
      if s.load_a.isNone then { s with load_a := some idx }
      else if s.load_b.isNone then { s with load_b := some idx }
      else s
    | .Add =>
      if ins.src1 = some (.Imm 1) then { s with inc_op := some idx }
      else if ins.src2 = some (.Imm 1) then { s with inc_op := some idx }
      else { s with add_op := some idx }
    | .Store => { s with store_op := some idx }
    | _ => s

/-- The `Cmp index, limit` re-scan of `Optimizer::vectorize_loop`
(the last matching compare wins; its `src2` — possibly `None` — becomes
the limit). -/
def vecCmpStep (l : List Instruction) (la : Nat)
    (s : Option Operand × Option Nat) (i : Nat) :
    Option Operand × Option Nat :=
  match l[i]? with
  | none => s
  | some ins =>
    if ins.op = .Cmp then
      match (l[la]?).bind (·.src2) with
      | some (.Reg idxReg) =>
        match ins.src1 with
        | some (.Reg r) => if r = idxReg then (ins.src2, some i) else s
        | _ => s
      | _ => s
    else s

/-- The vector-body rewrite of `Optimizer::vectorize_loop`: transform the
matched loads/add/store/increment, drop the matched compare and every
conditional branch, keep the rest. -/
def vecTransformBody (l : List Instruction) (la lb add st inc : Nat)
    (cmpIdx : Option Nat) (idxs : List Nat) : List Instruction :=
  idxs.foldr
    (fun i acc =>
      match l[i]? with
      | none => acc
      | some inst0 =>
        let inst :=
          if i = la then
            { inst0 with op := .VLoad, dest := some (.Ymm 100) }
          else if i = lb then
            { inst0 with op := .VLoad, dest := some (.Ymm 101) }
          else if i = add then
            { inst0 with
              op := .VAdd
              dest := some (.Ymm 102)
              src1 := some (.Ymm 100)
              src2 := some (.Ymm 101) }
          else if i = st then
            { inst0 with op := .VStore, src2 := some (.Ymm 102) }
          else if i = inc then
            { inst0 with src1 := some (.Imm 4) }
          else inst0
        if cmpIdx = some i then acc
        else if inst.op = .Je ∨ inst.op = .Jne ∨ inst.op = .Jg ∨
            inst.op = .Jge ∨ inst.op = .Jl ∨ inst.op = .Jle then acc
        else inst :: acc)
    []

/-- `Optimizer::vectorize_loop`: pattern-match a
Load/Load/Add/Store/increment body guarded by `Cmp index, limit` and
rewrite it into a stride-4 vector loop followed by the original loop as a
scalar cleanup.  All list indices produced by the scans are in range; the
`Option` fallbacks below are unreachable. -/
def vectorize_loop (f : Function) : Function × Bool :=
  match findVecLoop f.instructions.enum none with
  | none => (f, false)
  | some (start, stop, lname) =>
    let l := f.instructions
    let scan := ((List.range' start (stop - start)).foldl
      (vecScanStep l) {})
    match scan.load_a, scan.load_b, scan.add_op, scan.store_op,
        scan.inc_op with
    | some la, some lb, some add, some st, some inc =>
      let (limitOp, cmpIdx) := (List.range' start (stop - start)).foldl
        (vecCmpStep l la) (none, none)
      match limitOp with
      | none => (f, false)
      | some limit =>
        match (l[la]?).bind (·.src2) with
        | some (.Reg idxReg) =>
          let vecLabel := lname ++ "_vec"
          let cleanLabel := lname ++ "_cleanup"
          let newInstrs :=
            l.take start ++
            [{ op := .Label, dest := some (.Label vecLabel) },
             { op := .Mov
               dest := some (.Reg 200)
               src1 := some (.Reg idxReg) },
             { op := .Add
               dest := some (.Reg 200)
               src1 := some (.Imm 4) },
             { op := .Cmp, src1 := some (.Reg 200), src2 := some limit },
             { op := .Jg, dest := some (.Label cleanLabel) }] ++
            vecTransformBody l la lb add st inc cmpIdx
              (List.range' (start + 1) (stop - (start + 1))) ++
            [{ op := .Jmp, dest := some (.Label vecLabel) },
             { op := .Label, dest := some (.Label cleanLabel) }] ++
            l.drop start
          ({ f with instructions := newInstrs }, true)
        | _ => (f, false)
    | _, _, _, _, _ => (f, false)

/-- One iteration of the `while changed` loop of
`Optimizer::optimize_function`: run every pass once (vectorization at
level ≥ 3, unrolling at level ≥ 2) and report whether anything changed. -/
def optimize_function_step (level : Nat) (f : Function) :
    Except Aborted (Function × Bool) := do
  let (f1, c1) := remove_identity_moves f
  let (f2, c2) ← constant_folding f1
  let (f3, c3) := dead_code_elimination f2
  let (f4, c4) := if level ≥ 3 then vectorize_loop f3 else (f3, false)
  let (f5, c5) := if level ≥ 2 then loop_unrolling f4 else (f4, false)
  .ok (f5, c1 || c2 || c3 || c4 || c5)

/-- `Optimizer::optimize_function`: run the passes to a fixed point.
`fuel` bounds the number of iterations of the Rust `while changed` loop;
running out is `.error .fuelOut`, a pass panic is `.error .panic`. -/
def optimize_function : Nat → Nat → Function → Except Aborted Function
  | 0, _, _ => .error .fuelOut
  | fuel + 1, level, f => do
    let (f5, changed) ← optimize_function_step level f
    if changed then optimize_function fuel level f5 else .ok f5

/-- `Optimizer::optimize_program`. -/
def optimize_program (fuel level : Nat) (p : Program) :
    Except Aborted Program := do
  let fs ← p.functions.mapM (optimize_function fuel level)
  .ok { functions := fs }

/-! ## Reference semantics of the IR

An executable interpreter for the single-function, call-free fragment of
the IR, following the operand-role documentation in `ir.rs`
(`Load dest, base, index → dest = MEM[base + index*8]`, two-address
arithmetic, flag-setting `Cmp` with conditional branches, 256-bit vector
ops as four 64-bit lanes, `Ret` returning the accumulator `Reg 0` per the
parser's `Mov Reg(0), val ; Ret` lowering of `return`).  It is the
observable-output semantics against which optimizer passes are judged. -/

/-- Four 64-bit lanes of a 256-bit vector register. -/
structure Lanes where
  l0 : Int := 0
  l1 : Int := 0
  l2 : Int := 0
  l3 : Int := 0
  deriving DecidableEq, Repr

/-- Interpreter state: integer registers, vector registers, byte-addressed
memory of 64-bit cells, and the two values of the last `Cmp`. -/
structure ExecState where
  regs : Nat → Int
  ymms : Nat → Lanes
  mem : Int → Int
  cmpL : Int := 0
  cmpR : Int := 0

/-- Value of a register or immediate operand. -/
def valueOf (st : ExecState) : Operand → Option Int
  | .Reg r => some (st.regs r)
  | .Imm v => some v
  | _ => none

/-- Index of the first `Label` instruction binding `name`. -/
def findLabel (l : List Instruction) (name : String) : Option Nat :=
  l.findIdx? (fun ins => ins.op = .Label ∧ ins.dest = some (.Label name))

/-- One conditional-branch step: jump to `t` when `cond` holds. -/
def branchTarget (l : List Instruction) (pc : Nat) (cond : Bool)
    (t : String) : Option Nat :=
  if cond then findLabel l t else some (pc + 1)

/-- Run the interpreter for at most `fuel` steps from `pc`.  `none` means
the run got stuck (unsupported opcode, missing operand, unknown label,
fall-off-the-end) or did not finish within `fuel`. -/
def interpRun (l : List Instruction) : Nat → Nat → ExecState → Option Int
  | 0, _, _ => none
  | fuel + 1, pc, st =>
    match l[pc]? with
    | none => none
    | some ins =>
      match ins.op with
      | .Label => interpRun l fuel (pc + 1) st
      | .Ret => some (st.regs 0)
      | .Mov =>
        match ins.dest, ins.src1.bind (valueOf st) with
        | some (.Reg d), some v =>
          interpRun l fuel (pc + 1) { st with regs := upd st.regs d v }
        | _, _ => none
      | .Add =>
        match ins.dest, ins.src1.bind (valueOf st) with
        | some (.Reg d), some v =>
          interpRun l fuel (pc + 1)
            { st with regs := upd st.regs d (st.regs d + v) }
        | _, _ => none
      | .Sub =>
        match ins.dest, ins.src1.bind (valueOf st) with
        | some (.Reg d), some v =>
          interpRun l fuel (pc + 1)
            { st with regs := upd st.regs d (st.regs d - v) }
        | _, _ => none
      | .Mul =>
        match ins.dest, ins.src1.bind (valueOf st) with
        | some (.Reg d), some v =>
          interpRun l fuel (pc + 1)
            { st with regs := upd st.regs d (st.regs d * v) }
        | _, _ => none
      | .Cmp =>
        match ins.src1.bind (valueOf st), ins.src2.bind (valueOf st) with
        | some a, some b =>
          interpRun l fuel (pc + 1) { st with cmpL := a, cmpR := b }
        | _, _ => none
      | .Jmp =>
        match ins.dest with
        | some (.Label t) =>
          match findLabel l t with
          | some j => interpRun l fuel j st
          | none => none
        | _ => none
      | .Jnz =>
        match ins.dest, ins.src1 with
        | some (.Label t), some (.Reg r) =>
          match branchTarget l pc (st.regs r ≠ 0) t with
          | some j => interpRun l fuel j st
          | none => none
        | _, _ => none
      | .Je =>
        match ins.dest with
        | some (.Label t) =>
          match branchTarget l pc (st.cmpL = st.cmpR) t with
          | some j => interpRun l fuel j st
          | none => none
        | _ => none
      | .Jne =>
        match ins.dest with
        | some (.Label t) =>
          match branchTarget l pc (st.cmpL ≠ st.cmpR) t with
          | some j => interpRun l fuel j st
          | none => none
        | _ => none
      | .Jl =>
        match ins.dest with
        | some (.Label t) =>
          match branchTarget l pc (st.cmpL < st.cmpR) t with
          | some j => interpRun l fuel j st
          | none => none
        | _ => none
      | .Jle =>
        match ins.dest with
        | some (.Label t) =>
          match branchTarget l pc (st.cmpL ≤ st.cmpR) t with
          | some j => interpRun l fuel j st
          | none => none
        | _ => none
      | .Jg =>
        match ins.dest with
        | some (.Label t) =>
          match branchTarget l pc (st.cmpL > st.cmpR) t with
          | some j => interpRun l fuel j st
          | none => none
        | _ => none
      | .Jge =>
        match ins.dest with
        | some (.Label t) =>
          match branchTarget l pc (st.cmpL ≥ st.cmpR) t with
          | some j => interpRun l fuel j st
          | none => none
        | _ => none
      | .Load =>
        match ins.dest, ins.src1.bind (valueOf st),
            ins.src2.bind (valueOf st) with
        | some (.Reg d), some base, some idx =>
          interpRun l fuel (pc + 1)
            { st with regs := upd st.regs d (st.mem (base + idx * 8)) }
        | _, _, _ => none
      | .Store =>
        match ins.dest.bind (valueOf st), ins.src1.bind (valueOf st),
            ins.src2.bind (valueOf st) with
        | some base, some idx, some v =>
          interpRun l fuel (pc + 1)
            { st with mem := upd st.mem (base + idx * 8) v }
        | _, _, _ => none
      | .VLoad =>
        match ins.dest, ins.src1.bind (valueOf st),
            ins.src2.bind (valueOf st) with
        | some (.Ymm y), some base, some idx =>
          let lanes : Lanes :=
            { l0 := st.mem (base + idx * 8)
              l1 := st.mem (base + (idx + 1) * 8)
              l2 := st.mem (base + (idx + 2) * 8)
              l3 := st.mem (base + (idx + 3) * 8) }
          interpRun l fuel (pc + 1) { st with ymms := upd st.ymms y lanes }
        | _, _, _ => none
      | .VStore =>
        match ins.dest.bind (valueOf st), ins.src1.bind (valueOf st),
            ins.src2 with
        | some base, some idx, some (.Ymm y) =>
          let v := st.ymms y
          let m := upd st.mem (base + idx * 8) v.l0
          let m := upd m (base + (idx + 1) * 8) v.l1
          let m := upd m (base + (idx + 2) * 8) v.l2
          let m := upd m (base + (idx + 3) * 8) v.l3
          interpRun l fuel (pc + 1) { st with mem := m }
        | _, _, _ => none
      | .VAdd =>
        match ins.dest, ins.src1, ins.src2 with
        | some (.Ymm d), some (.Ymm a), some (.Ymm b) =>
          let va := st.ymms a
          let vb := st.ymms b
          let vd : Lanes :=
            { l0 := va.l0 + vb.l0
              l1 := va.l1 + vb.l1
              l2 := va.l2 + vb.l2
              l3 := va.l3 + vb.l3 }
          interpRun l fuel (pc + 1) { st with ymms := upd st.ymms d vd }
        | _, _, _ => none
      | _ => none

/-- All-zero initial state. -/
def initState : ExecState :=
  { regs := fun _ => 0, ymms := fun _ => {}, mem := fun _ => 0 }

/-- Observable output of a single function on the zero-initialized state. -/
def interpFunction (f : Function) (fuel : Nat) : Option Int :=
  interpRun f.instructions fuel 0 initState

/-- Observable output of a program: run its `main` function. -/
def interpMain (p : Program) (fuel : Nat) : Option Int :=
  match p.functions.find? (fun f => f.name = "main") with
  | some f => interpFunction f fuel
  | none => none

/-- A concrete single-function program whose loop body is *accepted* by the
`vectorize_loop` pattern matcher although its `Add` doubles the first load
(`r1 += r1`) instead of summing the two loads: element-wise it computes
`C[i] = 2 * A[i]`, with `A[0] = 1`, `B[0] = 5`, `N = 4`, returning `C[0]`. -/
def exVecFunc : Function :=
  { name := "main", args := [],
    instructions := [
      ⟨.Mov, some (.Reg 10), some (.Imm 0), none⟩,
      ⟨.Mov, some (.Reg 11), some (.Imm 64), none⟩,
      ⟨.Mov, some (.Reg 12), some (.Imm 128), none⟩,
      ⟨.Store, some (.Reg 10), some (.Imm 0), some (.Imm 1)⟩,
      ⟨.Store, some (.Reg 11), some (.Imm 0), some (.Imm 5)⟩,
      ⟨.Mov, some (.Reg 13), some (.Imm 0), none⟩,
      ⟨.Label, some (.Label "loop"), none, none⟩,
      ⟨.Cmp, none, some (.Reg 13), some (.Imm 4)⟩,
      ⟨.Je, some (.Label "end"), none, none⟩,
      ⟨.Load, some (.Reg 1), some (.Reg 10), some (.Reg 13)⟩,
      ⟨.Load, some (.Reg 2), some (.Reg 11), some (.Reg 13)⟩,
      ⟨.Add, some (.Reg 1), some (.Reg 1), none⟩,
      ⟨.Store, some (.Reg 12), some (.Reg 13), some (.Reg 1)⟩,
      ⟨.Add, some (.Reg 13), some (.Imm 1), none⟩,
      ⟨.Jmp, some (.Label "loop"), none, none⟩,
      ⟨.Label, some (.Label "end"), none, none⟩,
      ⟨.Load, some (.Reg 0), some (.Reg 12), some (.Imm 0)⟩,
      ⟨.Ret, none, none, none⟩ ] }

/-- The one-function program around `exVecFunc`. -/
def exVecProg : Program := ⟨[exVecFunc]⟩

/-- A function on which the claimed constant *propagation*
(`Mov r, Imm k ; Mov r2, r  →  Mov r2, Imm k`) would fire. -/
def exPropFunc : Function :=
  { name := "f", args := [],
    instructions := [
      ⟨.Mov, some (.Reg 0), some (.Imm 7), none⟩,
      ⟨.Mov, some (.Reg 1), some (.Reg 0), none⟩,
      ⟨.Ret, none, none, none⟩ ] }

/-- A function on which the `Mov r, Imm ; Add r, Imm` fuse fires. -/
def exFuseFunc : Function :=
  { name := "g", args := [],
    instructions := [
      ⟨.Mov, some (.Reg 0), some (.Imm 2), none⟩,
      ⟨.Add, some (.Reg 0), some (.Imm 3), none⟩,
      ⟨.Ret, none, none, none⟩ ] }

/-! ## `compiler.rs`: liveness analysis -/

/-- `compiler.rs` `Location`: a physical register id or a stack offset
relative to RBP. -/
inductive Location where
  | Register (r : Nat)
  | Spill (off : Int)
  deriving DecidableEq, Repr

/-- `compiler.rs` `Interval`.  The Rust field `end` is a Lean keyword and
is rendered `stop`. -/
structure Interval where
  operand : Operand
  start : Nat
  stop : Nat
  assigned_loc : Option Location := none
  deriving DecidableEq, Repr

/-- The branch opcodes considered by `liveness_analysis` (and by the
loop-header scan of `compile_program`). -/
def isBranchOp (op : Opcode) : Bool :=
  match op with
  | .Jmp | .Jnz | .Je | .Jne | .Jl | .Jle | .Jg | .Jge => true
  | _ => false

/-- The `Reg`/`Ymm` operands recorded for an instruction by
`liveness_analysis`: every explicitly mentioned register operand, plus —
for `Call` — the four argument registers `Reg 1..4` and the result
register `Reg 0`, plus — for `LoadArg` — the destination register (a
repeat of the explicit mention, as in the Rust). -/
def instrOperands (ins : Instruction) : List Operand :=
  (([ins.dest, ins.src1, ins.src2].filterMap id).filter
      (fun op => match op with
        | .Reg _ | .Ymm _ => true
        | _ => false)) ++
  (if ins.op = .Call then
    [.Reg 1, .Reg 2, .Reg 3, .Reg 4, .Reg 0] else []) ++
  (match ins.op, ins.dest with
    | .LoadArg _, some (.Reg r) => [.Reg r]
    | _, _ => [])

/-- The `starts` map of `liveness_analysis`: index of the first
instruction mentioning `op`. -/
def firstAppearance (l : List Instruction) (op : Operand) : Option Nat :=
  l.findIdx? (fun ins => op ∈ instrOperands ins)

/-- The `ends` map of `liveness_analysis`: index of the last instruction
mentioning `op`. -/
def lastAppearance (l : List Instruction) (op : Operand) : Option Nat :=
  l.enum.foldl
    (fun acc (p : Nat × Instruction) =>
      if op ∈ instrOperands p.2 then some p.1 else acc)
    none

/-- The `back_edges` list of `liveness_analysis`: every branch whose
target label index (last binding, as with a `HashMap`) precedes the
branch, as `(target_idx, branch_idx)` in scan order. -/
def back_edges (l : List Instruction) : List (Nat × Nat) :=
  l.enum.filterMap
    (fun (p : Nat × Instruction) =>
      if isBranchOp p.2.op then
        match p.2.dest with
        | some (.Label target) =>
          match lookupLabelLast l target with
          | some ti => if ti < p.1 then some (ti, p.1) else none
          | none => none
        | _ => none
      else none)

/-- The loop-correction fold of `liveness_analysis`: for each back edge
`(loop_head, loop_tail)`, if the current interval `[start, e]` covers
`loop_head`, extend `e` to at least `loop_tail`. -/
def extendEnd (be : List (Nat × Nat)) (start : Nat) (e0 : Nat) : Nat :=
  be.foldl
    (fun e (p : Nat × Nat) =>
      if start ≤ p.1 ∧ p.1 ≤ e then (if e < p.2 then p.2 else e) else e)
    e0

/-- The operand set (`ops`) of `liveness_analysis`.  The Rust `HashSet`
iterates in unspecified order before the stable sort by start; the model
fixes a concrete deduplication order. -/
def operandsOf (l : List Instruction) : List Operand :=
  (l.flatMap instrOperands).dedup

/-- Interval construction of `liveness_analysis` for one operand
(`unwrap_or(&0)` defaults as in the Rust). -/
def mkInterval (l : List Instruction) (be : List (Nat × Nat))
    (op : Operand) : Interval :=
  let start := (firstAppearance l op).getD 0
  let e0 := (lastAppearance l op).getD 0
  ⟨op, start, extendEnd be start e0, none⟩

/-- Stable insertion step: place `a` after every element whose start is
not greater (so equal-start elements keep their original order, as with
Rust's stable `sort_by_key`). -/
def insertByStart (a : Interval) : List Interval → List Interval
  | [] => [a]
  | b :: bs =>
    if b.start ≤ a.start then b :: insertByStart a bs else a :: b :: bs

/-- Stable sort by interval start (insertion sort, processing the list
left to right — the same stable result as Rust's `sort_by_key`). -/
def sortByStart (l : List Interval) : List Interval :=
  l.foldl (fun acc a => insertByStart a acc) []

/-- `compiler.rs` `liveness_analysis`: one interval per mentioned
register operand, loop-corrected, stably sorted by start. -/
def liveness_analysis (f : Function) : List Interval :=
  let l := f.instructions
  let be := back_edges l
  sortByStart ((operandsOf l).map (mkInterval l be))

/-! ## `compiler.rs`: linear-scan register allocation -/

/-- The pre-coloring performed at the top of `allocate_registers`: the
result slot `Reg 0` is fixed to physical register 0 and argument slots
`Reg 1..4` to physical registers 1..4, for those present in the interval
list.  (Both Rust loops insert `Reg r ↦ Register r` exactly when some
interval's operand is `Reg r` with `r < 5`.) -/
def precolored_map (intervals : List Interval) (op : Operand) :
    Option Location :=
  match op with
  | .Reg r =>
    if r ≤ 4 ∧ intervals.any (fun iv => iv.operand = .Reg r) then
      some (.Register r)
    else none
  | _ => none

/-- The `pre_colored` table of `allocate_registers`: for each physical
register, the intervals fixed to it by pre-coloring. -/
def pre_colored (intervals : List Interval) (r : Nat) : List Interval :=
  intervals.filter
    (fun iv => precolored_map intervals iv.operand = some (.Register r))

/-- Ascending insertion into a sorted `Nat` list (for
`free_regs.sort()`). -/
def insertNatAsc (a : Nat) : List Nat → List Nat
  | [] => [a]
  | b :: bs => if b ≤ a then b :: insertNatAsc a bs else a :: b :: bs

/-- `free_regs.sort()`. -/
def sortNat (l : List Nat) : List Nat :=
  l.foldl (fun acc a => insertNatAsc a acc) []

/-- Mutable state of the `allocate_registers` scan. -/
structure AllocState where
  map : Operand → Option Location
  active : List Interval
  stack_slot_count : Nat

/-- Initial allocator state: the pre-colored map, no actives, no spill
slots. -/
def initAllocState (intervals : List Interval) : AllocState :=
  ⟨precolored_map intervals, [], 0⟩

/-- `active.iter().enumerate().max_by_key(|iv| iv.end)`: index of the
spill candidate; Rust's `max_by_key` returns the *last* maximal
element. -/
def spill_candidate (active : List Interval) : Option Nat :=
  (active.enum.foldl
    (fun acc (p : Nat × Interval) =>
      match acc with
      | none => some (p.1, p.2.stop)
      | some (j, e) => if p.2.stop ≥ e then some (p.1, p.2.stop) else some (j, e))
    none).map (fun q => q.1)

/-- One iteration of the `allocate_registers` scan over `intervals[i]`:
expire actives, take a pre-colored assignment from the map, otherwise
assign the smallest free register, otherwise evict the spill candidate
when it ends later than the current interval, otherwise spill the
current interval.  The `.error .panic` branch mirrors the Rust
`panic!("Active should be reg")`. -/
def expireActive (active : List Interval) (cur : Interval) :
    List Interval :=
  active.filter (fun iv => iv.stop > cur.start)

/-- `used_regs`: the physical registers held by the active set. -/
def usedRegs (active : List Interval) : List Nat :=
  active.filterMap
    (fun iv => match iv.assigned_loc with
      | some (.Register r) => some r
      | _ => none)

/-- `free_regs`: pool registers neither held by an active nor strictly
overlapping a pre-colored interval, sorted ascending. -/
def freeRegs (ivs : List Interval) (pool : List Nat)
    (active : List Interval) (cur : Interval) : List Nat :=
  sortNat ((pool.filter (fun r => ¬ r ∈ usedRegs active)).filter
    (fun r => ¬ (pre_colored ivs r).any
      (fun f => cur.start < f.stop ∧ f.start < cur.stop)))

/-- The next spill-slot offset: `-(offset_start + stack_slot_count * 8)`
after incrementing the slot counter. -/
def spillOffset (offset_start : Int) (newCount : Nat) : Int :=
  -(offset_start + (newCount : Int) * 8)

/-- The spill-the-current-interval outcome of the scan iteration. -/
def spillCurrent (offset_start : Int) (st : AllocState)
    (active : List Interval) (cur : Interval) : AllocState :=
  ⟨upd st.map cur.operand
      (some (.Spill (spillOffset offset_start (st.stack_slot_count + 1)))),
    active, st.stack_slot_count + 1⟩

def allocStep (ivs : List Interval) (pool : List Nat) (offset_start : Int)
    (st : AllocState) (cur : Interval) : Except Aborted AllocState :=
  let active := expireActive st.active cur
  match st.map cur.operand with
  | some loc =>
    .ok ⟨st.map, active ++ [{ cur with assigned_loc := some loc }],
      st.stack_slot_count⟩
  | none =>
    match (freeRegs ivs pool active cur).head? with
    | some phys =>
      .ok ⟨upd st.map cur.operand (some (.Register phys)),
        active ++ [{ cur with assigned_loc := some (.Register phys) }],
        st.stack_slot_count⟩
    | none =>
      match spill_candidate active with
      | some cidx =>
        match active[cidx]? with
        | some victim =>
          if victim.stop > cur.stop then
            match victim.assigned_loc with
            | some (.Register reg) =>
              .ok ⟨upd (upd st.map victim.operand
                    (some (.Spill (spillOffset offset_start
                      (st.stack_slot_count + 1)))))
                  cur.operand (some (.Register reg)),
                (active.eraseIdx cidx) ++
                  [{ cur with assigned_loc := some (.Register reg) }],
                st.stack_slot_count + 1⟩
            | _ => .error .panic
          else .ok (spillCurrent offset_start st active cur)
        | none => .ok (spillCurrent offset_start st active cur)
      | none => .ok (spillCurrent offset_start st active cur)

/-- `compiler.rs` `allocate_registers`: fold the scan over the interval
list; returns the location map and the number of spill slots. -/
def allocate_registers (intervals : List Interval) (pool : List Nat)
    (offset_start : Int) :
    Except Aborted ((Operand → Option Location) × Nat) :=
  (intervals.foldlM (allocStep intervals pool offset_start)
      (initAllocState intervals)).map
    (fun st => (st.map, st.stack_slot_count))

/-- Non-strict-overlap: two closed ranges share at most one boundary
point (`stop₁ = start₂` or `stop₂ = start₁`), as required of intervals
assigned the same physical register. -/
def NoOv (a b : Interval) : Prop :=
  a.stop ≤ b.start ∨ b.stop ≤ a.start

/-- Interval list for the allocator witness: two disjoint intervals
competing for a one-register pool. -/
def exAllocIvs : List Interval :=
  [⟨.Reg 5, 0, 1, none⟩, ⟨.Reg 6, 2, 3, none⟩]

/-- Concrete loop function used as the liveness witness:
`r1 := 0; l: r1 += 1; if r1 < 3 goto l; ret`. -/
def exLoopFunc : Function :=
  { name := "w", args := [],
    instructions := [
      ⟨.Mov, some (.Reg 1), some (.Imm 0), none⟩,
      ⟨.Label, some (.Label "l"), none, none⟩,
      ⟨.Add, some (.Reg 1), some (.Imm 1), none⟩,
      ⟨.Cmp, none, some (.Reg 1), some (.Imm 3)⟩,
      ⟨.Jl, some (.Label "l"), none, none⟩,
      ⟨.Ret, none, none, none⟩ ] }

/-! ## `compiler.rs`: code emission as a `JitBuilder` call trace

`Compiler::compile_program` is modelled at the level of the sequence of
`JitBuilder` method calls it makes (one `Event` per call); byte encoding
is the assembler's concern and outside this model.  The absolute host
addresses of `libc::free`/`libc::malloc` moved by `mov_reg_imm64` are
abstracted into two dedicated events. -/

/-- One `JitBuilder` method call. -/
inductive Event where
  | bindLabel (name : String)
  | prologue (n : Nat)
  | push_reg (r : Nat)
  | pop_reg (r : Nat)
  | add_rsp (n : Int)
  | mov_reg_imm (r : Nat) (v : Int)
  | mov_reg_imm64_free (r : Nat)
  | mov_reg_imm64_malloc (r : Nat)
  | mov_reg_reg (d s : Nat)
  | mov_reg_stack (r : Nat) (off : Int)
  | mov_stack_reg (off : Int) (r : Nat)
  | add_reg_reg (d s : Nat)
  | add_reg_imm (d : Nat) (v : Int)
  | sub_reg_reg (d s : Nat)
  | sub_reg_imm (d : Nat) (v : Int)
  | imul_reg_reg (d s : Nat)
  | imul_reg_imm (d : Nat) (v : Int)
  | cmp_reg_reg (a b : Nat)
  | cmp_reg_imm (a : Nat) (v : Int)
  | dec_reg (r : Nat)
  | jz (l : String)
  | jmp (l : String)
  | jnz (r : Nat) (l : String)
  | je (l : String)
  | jne (l : String)
  | jl (l : String)
  | jle (l : String)
  | jg (l : String)
  | jge (l : String)
  | call (l : String)
  | call_reg (r : Nat)
  | mov_rdi_reg (r : Nat)
  | mov_rdi_imm (v : Int)
  | mov_reg_index (d base idx : Nat)
  | mov_index_reg (base idx src : Nat)
  | epilogue
  deriving DecidableEq, Repr

/-- `compile_program`'s loop-header scan: labels that are the target of
some backward branch (label indices resolved last-wins, as with the
`HashMap`). -/
def loop_headers (l : List Instruction) : List String :=
  l.enum.filterMap
    (fun (p : Nat × Instruction) =>
      if isBranchOp p.2.op then
        match p.2.dest with
        | some (.Label target) =>
          match lookupLabelLast l target with
          | some ti => if ti < p.1 then some target else none
          | none => none
        | _ => none
      else none)

/-- `compile_program`'s `get_loc` closure: the mapped location of an
integer register operand, defaulting to physical register 0. -/
def get_loc (gm : Operand → Option Location) (op : Option Operand) :
    Location :=
  match op with
  | some (.Reg v) => (gm (.Reg v)).getD (.Register 0)
  | _ => .Register 0

/-- `compile_program`'s `load_op` closure: events to materialize a
location into a register (spills load into the scratch). -/
def load_op (loc : Location) (scratch : Nat) : List Event × Nat :=
  match loc with
  | .Register r => ([], r)
  | .Spill off => ([.mov_reg_stack scratch off], scratch)

/-- `compile_program`'s `store_op` closure. -/
def store_op (loc : Location) (src : Nat) : List Event :=
  match loc with
  | .Register r => if r ≠ src then [.mov_reg_reg r src] else []
  | .Spill off => [.mov_stack_reg off src]

/-- `compiler.rs` `is_caller_saved`. -/
def is_caller_saved (r : Nat) : Bool :=
  match r with
  | 0 | 1 | 2 | 3 | 4 | 6 | 11 | 12 | 13 => true
  | _ => false

/-- Rust `Vec::dedup`: collapse *consecutive* duplicates (equivalent to a
full dedup after sorting). -/
def dedupAdj : List Nat → List Nat
  | [] => []
  | [a] => [a]
  | a :: b :: t => if a = b then dedupAdj (b :: t) else a :: dedupAdj (b :: t)

/-- The caller-saved registers live across the `Call` at `idx` (per the
`to_save` filter; `intervals` is the liveness list, whose `assigned_loc`
is always `none`, so this is empty in every actual call — modelled
faithfully). -/
def to_save (intervals : List Interval) (idx : Nat) : List Nat :=
  dedupAdj (sortNat
    ((intervals.filter (fun iv => iv.start < idx ∧ iv.stop > idx)).filterMap
        (fun iv => match iv.assigned_loc with
          | some (.Register r) => some r
          | _ => none)
      |>.filter (fun r => is_caller_saved r)))

/-- `LoadArg`/`SetArg` physical argument registers; indices above 3 hit
the Rust `panic!("Max 4 args")`. -/
def arg_phys (i : Nat) : Except Aborted Nat :=
  match i with
  | 0 => .ok 11
  | 1 => .ok 12
  | 2 => .ok 13
  | 3 => .ok 6
  | _ => .error .panic

/-- The opcode dispatch of `compile_program` for one instruction,
producing the emitted `JitBuilder` calls.  A failed `gpr_map` `unwrap`
or an argument index above 3 is `.error .panic`. -/
def lower_instr (gm : Operand → Option Location) (intervals : List Interval)
    (stack_size : Nat) (idx : Nat) (ins : Instruction) :
    Except Aborted (List Event) :=
  match ins.op with
  | .Mov =>
    let dest_loc := get_loc gm ins.dest
    match ins.src1 with
    | some (.Reg s) =>
      match gm (.Reg s) with
      | none => .error .panic
      | some src_loc =>
        match dest_loc, src_loc with
        | .Register d, .Register s' => .ok [.mov_reg_reg d s']
        | .Register d, .Spill off => .ok [.mov_reg_stack d off]
        | .Spill off, .Register s' => .ok [.mov_stack_reg off s']
        | .Spill d_off, .Spill s_off =>
          .ok [.mov_reg_stack 9 s_off, .mov_stack_reg d_off 9]
    | some (.Imm v) =>
      match dest_loc with
      | .Register d => .ok [.mov_reg_imm d v]
      | .Spill off => .ok [.mov_reg_imm 9 v, .mov_stack_reg off 9]
    | _ => .ok []
  | .Add =>
    let dest_loc := get_loc gm ins.dest
    let (e1, d_reg) := load_op dest_loc 9
    let back := match dest_loc with
      | .Spill off => [.mov_stack_reg off d_reg]
      | _ => []
    match ins.src1 with
    | some (.Reg s) =>
      match gm (.Reg s) with
      | none => .error .panic
      | some src_loc =>
        let (e2, s_reg) := load_op src_loc 10
        .ok (e1 ++ e2 ++ [.add_reg_reg d_reg s_reg] ++ back)
    | some (.Imm v) => .ok (e1 ++ [.add_reg_imm d_reg v] ++ back)
    | _ => .ok (e1 ++ back)
  | .Sub =>
    let dest_loc := get_loc gm ins.dest
    let (e1, d_reg) := load_op dest_loc 9
    let back := match dest_loc with
      | .Spill off => [.mov_stack_reg off d_reg]
      | _ => []
    match ins.src1 with
    | some (.Reg s) =>
      match gm (.Reg s) with
      | none => .error .panic
      | some src_loc =>
        let (e2, s_reg) := load_op src_loc 10
        .ok (e1 ++ e2 ++ [.sub_reg_reg d_reg s_reg] ++ back)
    | some (.Imm v) => .ok (e1 ++ [.sub_reg_imm d_reg v] ++ back)
    | _ => .ok (e1 ++ back)
  | .Mul =>
    let dest_loc := get_loc gm ins.dest
    let (e1, d_reg) := load_op dest_loc 9
    let back := match dest_loc with
      | .Spill off => [.mov_stack_reg off d_reg]
      | _ => []
    match ins.src1 with
    | some (.Reg s) =>
      match gm (.Reg s) with
      | none => .error .panic
      | some src_loc =>
        let (e2, s_reg) := load_op src_loc 10
        .ok (e1 ++ e2 ++ [.imul_reg_reg d_reg s_reg] ++ back)
    | some (.Imm v) => .ok (e1 ++ [.imul_reg_imm d_reg v] ++ back)
    | _ => .ok (e1 ++ back)
  | .Label => .ok []
  | .Jmp =>
    match ins.dest with
    | some (.Label t) => .ok [.jmp t]
    | _ => .ok []
  | .Jnz =>
    match ins.dest, ins.src1 with
    | some (.Label t), some (.Reg c) =>
      match gm (.Reg c) with
      | none => .error .panic
      | some cond_loc =>
        let (e1, c_reg) := load_op cond_loc 9
        .ok (e1 ++ [.cmp_reg_imm c_reg 0, .jnz c_reg t])
    | _, _ => .ok []
  | .Cmp =>
    let r1_loc := get_loc gm ins.src1
    let (e1, r1) := load_op r1_loc 9
    match ins.src2 with
    | some (.Reg s) =>
      match gm (.Reg s) with
      | none => .error .panic
      | some r2_loc =>
        let (e2, r2) := load_op r2_loc 10
        .ok (e1 ++ e2 ++ [.cmp_reg_reg r1 r2])
    | some (.Imm v) => .ok (e1 ++ [.cmp_reg_imm r1 v])
    | _ => .ok e1
  | .Je =>
    match ins.dest with
    | some (.Label t) => .ok [.je t]
    | _ => .ok []
  | .Jne =>
    match ins.dest with
    | some (.Label t) => .ok [.jne t]
    | _ => .ok []
  | .Jl =>
    match ins.dest with
    | some (.Label t) => .ok [.jl t]
    | _ => .ok []
  | .Jle =>
    match ins.dest with
    | some (.Label t) => .ok [.jle t]
    | _ => .ok []
  | .Jg =>
    match ins.dest with
    | some (.Label t) => .ok [.jg t]
    | _ => .ok []
  | .Jge =>
    match ins.dest with
    | some (.Label t) => .ok [.jge t]
    | _ => .ok []
  | .LoadArg arg_idx => do
    let dest_loc := get_loc gm ins.dest
    let src_phys ← arg_phys arg_idx
    .ok (store_op dest_loc src_phys)
  | .SetArg arg_idx => do
    let dest_phys ← arg_phys arg_idx
    match ins.src1 with
    | some (.Imm v) => .ok [.mov_reg_imm dest_phys v]
    | some (.Reg s) =>
      match gm (.Reg s) with
      | none => .error .panic
      | some src_loc =>
        let (e1, sr) := load_op src_loc 9
        .ok (e1 ++ (if sr ≠ dest_phys then [.mov_reg_reg dest_phys sr]
          else []))
    | _ => .ok []
  | .Call =>
    match ins.src1 with
    | some (.Label target) =>
      let target_label := "fn_" ++ target
      let ts := to_save intervals idx
      let pushes := ts.map (fun r => Event.push_reg r)
      let pops := ts.reverse.map (fun r => Event.pop_reg r)
      let pad1 := if ts.length % 2 ≠ 0 then [Event.add_rsp (-8)] else []
      let pad2 := if ts.length % 2 ≠ 0 then [Event.add_rsp 8] else []
      let dest_loc := get_loc gm ins.dest
      .ok (pushes ++ pad1 ++ [.call target_label] ++ pad2 ++ pops ++
        store_op dest_loc 0)
    | _ => .ok []
  | .Ret =>
    .ok ((if stack_size > 0 then [Event.add_rsp (stack_size : Int)]
        else []) ++
      [.pop_reg 5, .pop_reg 10, .pop_reg 9, .pop_reg 8, .pop_reg 7,
        .epilogue])
  | .Free => do
    let e1 ← match ins.src1 with
      | some (.Reg s) =>
        match gm (.Reg s) with
        | none => .error .panic
        | some src_loc =>
          let (e, sr) := load_op src_loc 9
          .ok (e ++ [Event.mov_rdi_reg sr])
      | _ => .ok []
    .ok ([Event.mov_reg_imm64_free 0] ++ e1 ++
      [.push_reg 1, .push_reg 2, .push_reg 3, .push_reg 4, .push_reg 6,
       .push_reg 11, .push_reg 12, .push_reg 13, .call_reg 0,
       .pop_reg 13, .pop_reg 12, .pop_reg 11, .pop_reg 6, .pop_reg 4,
       .pop_reg 3, .pop_reg 2, .pop_reg 1])
  | .Alloc => do
    let e1 ← match ins.src1 with
      | some (.Imm v) => .ok [Event.mov_rdi_imm v]
      | some (.Reg s) =>
        match gm (.Reg s) with
        | none => .error .panic
        | some src_loc =>
          let (e, sr) := load_op src_loc 9
          .ok (e ++ [Event.mov_rdi_reg sr])
      | _ => .ok []
    let dest_loc := get_loc gm ins.dest
    .ok ([Event.mov_reg_imm64_malloc 0] ++ e1 ++
      [.push_reg 1, .push_reg 2, .push_reg 3, .push_reg 4, .push_reg 6,
       .push_reg 11, .push_reg 12, .push_reg 13, .call_reg 0,
       .pop_reg 13, .pop_reg 12, .pop_reg 11, .pop_reg 6, .pop_reg 4,
       .pop_reg 3, .pop_reg 2, .pop_reg 1] ++
      store_op dest_loc 0)
  | .Load =>
    let dest_loc := get_loc gm ins.dest
    let base_loc := get_loc gm ins.src1
    let (eb, base_reg) := load_op base_loc 9
    match ins.src2 with
    | some (.Imm v) =>
      let d_reg := match dest_loc with
        | .Register r => r
        | _ => 10
      .ok (eb ++ [.mov_reg_imm d_reg v, .mov_reg_index d_reg base_reg d_reg]
        ++ (match dest_loc with
          | .Spill off => [Event.mov_stack_reg off d_reg]
          | _ => []))
    | some (.Reg iv) =>
      match gm (.Reg iv) with
      | none => .error .panic
      | some idx_loc =>
        let (ei, idx_reg) := load_op idx_loc 10
        let d_reg := match dest_loc with
          | .Register r => r
          | _ => 9
        .ok (eb ++ ei ++ [.mov_reg_index d_reg base_reg idx_reg]
          ++ (match dest_loc with
            | .Spill off => [Event.mov_stack_reg off d_reg]
            | _ => []))
    | _ => .ok eb
  | .Store =>
    let base_loc := get_loc gm ins.dest
    let (eb, base_reg) := load_op base_loc 9
    let (ev, val_reg) :=
      match ins.src2 with
      | some (.Imm v) => ([Event.mov_reg_imm 0 v], 0)
      | _ => load_op (get_loc gm ins.src2) 10
    let (ei, idx_reg) :=
      match ins.src1 with
      | some (.Imm v) => ([Event.mov_reg_imm 6 v], 6)
      | _ =>
        match get_loc gm ins.src1 with
        | .Register r => ([], r)
        | .Spill off => ([Event.mov_reg_stack 6 off], 6)
    .ok (eb ++ ev ++ ei ++ [.mov_index_reg base_reg idx_reg val_reg])
  | _ => .ok []

/-- The per-instruction emission of `compile_program`: the `Label`
binding (with the fuel `dec`/`jz` injection at loop headers) followed by
the opcode dispatch. -/
def lower_full (gm : Operand → Option Location) (intervals : List Interval)
    (stack_size : Nat) (lh : List String) (fail_label : String)
    (idx : Nat) (ins : Instruction) : Except Aborted (List Event) := do
  let pre :=
    match ins.op, ins.dest with
    | .Label, some (.Label name) =>
      [Event.bindLabel name] ++
        (if name ∈ lh then [Event.dec_reg 5, Event.jz fail_label] else [])
    | _, _ => []
  let main ← lower_instr gm intervals stack_size idx ins
  .ok (pre ++ main)

/-- The function prologue emission of `compile_program` (label bind,
frame setup, callee-saved pushes, spill-region reservation, fuel-counter
initialization to 1,000,000 in register 5). -/
def prologueEvents (name : String) (stack_size : Nat) : List Event :=
  [.bindLabel ("fn_" ++ name), .prologue 0, .push_reg 7, .push_reg 8,
   .push_reg 9, .push_reg 10, .push_reg 5] ++
  (if stack_size > 0 then [Event.add_rsp (-(stack_size : Int))] else []) ++
  [.mov_reg_imm 5 1000000]

/-- The per-function fuel-exhaustion epilogue of `compile_program`: bind
the fail label, move the sentinel −999 into the return register, unwind
and return. -/
def failEvents (name : String) (stack_size : Nat) : List Event :=
  [.bindLabel ("fuel_fail_" ++ name), .mov_reg_imm 0 (-999)] ++
  (if stack_size > 0 then [Event.add_rsp (stack_size : Int)] else []) ++
  [.pop_reg 5, .pop_reg 10, .pop_reg 9, .pop_reg 8, .pop_reg 7, .epilogue]

/-- The `stack_size` computation of `compile_program`: spill bytes,
bumped by 8 when 16-aligned. -/
def stackSizeOf (spill_slots : Nat) : Nat :=
  let raw := spill_slots * 8
  if raw % 16 = 0 then raw + 8 else raw

/-- Per-function emission of `Compiler::compile_program`: liveness,
split GPR/YMM allocation, prologue, per-instruction lowering, fuel-fail
epilogue. -/
def compile_function (func : Function) : Except Aborted (List Event) := do
  let intervals := liveness_analysis func
  let gpr_intervals := intervals.filter
    (fun iv => match iv.operand with | .Reg _ => true | _ => false)
  let ymm_intervals := intervals.filter
    (fun iv => match iv.operand with | .Ymm _ => true | _ => false)
  let (gpr_map, stack_slots) ←
    allocate_registers gpr_intervals [1, 2, 3, 4, 7, 8, 11, 12, 13] 40
  let stack_size := stackSizeOf stack_slots
  let (_ymm_map, _) ← allocate_registers ymm_intervals (List.range 16) 0
  let lh := loop_headers func.instructions
  let body ← (func.instructions.enum.mapM
    (fun (p : Nat × Instruction) =>
      lower_full gpr_map intervals stack_size lh
        ("fuel_fail_" ++ func.name) p.1 p.2))
  .ok (prologueEvents func.name stack_size ++ body.flatten ++
    failEvents func.name stack_size)

/-- `Compiler::compile_program`: optimize, then emit every function.
Byte offsets are not modelled; the result is the per-function event
lists. -/
def Compiler.compile_program (prog : Program) (opt_level : Nat)
    (fuel : Nat) : Except Aborted (List (List Event)) := do
  let program ← optimize_program fuel opt_level prog
  program.functions.mapM compile_function

/-- A program whose `main` has an empty instruction list. -/
def exEmptyProg : Program :=
  ⟨[{ name := "main", args := [], instructions := [] }]⟩

/-- A program using `LoadArg` with argument index 4. -/
def exLoadArg4Prog : Program :=
  ⟨[{ name := "main", args := [],
      instructions := [
        ⟨.LoadArg 4, some (.Reg 1), none, none⟩,
        ⟨.Ret, none, none, none⟩ ] }]⟩

/-! ## `jit_memory.rs`: dual-mapped W^X memory as an OS-request trace -/

/-- An mmap protection set. -/
structure Prot where
  read : Bool
  write : Bool
  exec : Bool
  deriving DecidableEq, Repr

/-- `PROT_READ | PROT_WRITE`. -/
def PROT_RW : Prot := ⟨true, true, false⟩

/-- `PROT_READ | PROT_EXEC`. -/
def PROT_RX : Prot := ⟨true, false, true⟩

/-- One OS request issued by the `jit_memory.rs` module.  `mprotect` is
included so that its *absence* from every trace is expressible. -/
inductive OsEvent where
  | memfd_create (name : String)
  | ftruncate (size : Nat)
  | mmap (size : Nat) (prot : Prot) (shared : Bool)
  | mprotect (prot : Prot)
  | munmap
  | close
  | fence
  deriving DecidableEq, Repr

/-- Which of the four fallible OS calls of `DualMappedMemory::new`
succeed. -/
structure OsOracle where
  memfd_ok : Bool
  ftruncate_ok : Bool
  mmap_rw_ok : Bool
  mmap_rx_ok : Bool
  deriving DecidableEq, Repr

/-- The OS-request trace of `DualMappedMemory::new` (with cleanup on the
failure paths) and whether it succeeds, following `jit_memory.rs` line
by line: memfd_create, ftruncate, `mmap(RW, MAP_SHARED)`, then
`mmap(RX, MAP_SHARED)` of the same backing object. -/
def DualMappedMemory.new_trace (size : Nat) (o : OsOracle) :
    List OsEvent × Bool :=
  if ¬ o.memfd_ok then ([.memfd_create "nanoforge_jit"], false)
  else if ¬ o.ftruncate_ok then
    ([.memfd_create "nanoforge_jit", .ftruncate size, .close], false)
  else if ¬ o.mmap_rw_ok then
    ([.memfd_create "nanoforge_jit", .ftruncate size,
      .mmap size PROT_RW true, .close], false)
  else if ¬ o.mmap_rx_ok then
    ([.memfd_create "nanoforge_jit", .ftruncate size,
      .mmap size PROT_RW true, .mmap size PROT_RX true,
      .munmap, .close], false)
  else
    ([.memfd_create "nanoforge_jit", .ftruncate size,
      .mmap size PROT_RW true, .mmap size PROT_RX true], true)

/-- `DualMappedMemory::flush_icache` on x86-64: a store fence only. -/
def DualMappedMemory.flush_icache_trace : List OsEvent := [.fence]

/-- `Drop for DualMappedMemory`: unmap both views, close the backing
object. -/
def DualMappedMemory.drop_trace : List OsEvent := [.munmap, .munmap, .close]

/-- The protection of an `mmap` request, if the event is one. -/
def mmapProt : OsEvent → Option Prot
  | .mmap _ p _ => some p
  | _ => none

/-- Boolean event check backing the W^X theorem: the event is not an
`mprotect` and any `mmap` protection is not simultaneously writable and
executable. -/
def eventOk : OsEvent → Bool
  | .mprotect _ => false
  | .mmap _ p _ => !(p.write && p.exec)
  | _ => true


end NanoForge

namespace NanoForge

/-! ## Theorems for C9 and C10 -/

/-- **C9**: `SizeBucket::from_size` realizes the five ranges
Tiny [0,32), Small [32,256), Medium [256,4096), Large [4096,65536),
Huge [65536,∞); in particular the transitions happen exactly between
31/32, 255/256, 4095/4096 and 65535/65536. -/
theorem sizeBucket_from_size_partition (n : Nat) :
    (SizeBucket.from_size n = .Tiny ↔ n < 32) ∧
    (SizeBucket.from_size n = .Small ↔ 32 ≤ n ∧ n < 256) ∧
    (SizeBucket.from_size n = .Medium ↔ 256 ≤ n ∧ n < 4096) ∧
    (SizeBucket.from_size n = .Large ↔ 4096 ≤ n ∧ n < 65536) ∧
    (SizeBucket.from_size n = .Huge ↔ 65536 ≤ n) := by
  unfold SizeBucket.from_size
  split_ifs with h1 h2 h3 h4 <;>
    refine ⟨?_, ?_, ?_, ?_, ?_⟩ <;> constructor <;>
    simp_all <;> omega

/-- **C10**: an out-of-range variant index makes `VariantBandit::update`
and `VariantBandit::update_with_performance` silent no-ops: the whole
bandit state (every α, β, selection counter) is returned unchanged and no
error is reported. -/
theorem variantBandit_out_of_range_update_noop (b : VariantBandit)
    (idx : Nat) (was_fastest : Bool) (cycles best_cycles : Nat)
    (h : idx ≥ b.num_variants) :
    b.update idx was_fastest = b ∧
    b.update_with_performance idx cycles best_cycles = b := by
  constructor
  · unfold VariantBandit.update
    simp [h]
  · unfold VariantBandit.update_with_performance
    simp [h]

/-- Witness for C10 at a concrete bandit: two arms, index 2 ≥ 2. -/
theorem variantBandit_out_of_range_update_noop_witness :
    (VariantBandit.new ["a", "b"]).update 2 true = VariantBandit.new ["a", "b"] ∧
    (VariantBandit.new ["a", "b"]).update_with_performance 2 5 3 =
      VariantBandit.new ["a", "b"] :=
  variantBandit_out_of_range_update_noop (VariantBandit.new ["a", "b"])
    2 true 5 3 (by decide)

/-! ## Theorems for C6 -/

/-- **C6 counterexample**: the reward is *not* contained in `(0, 1]` for
every choice of `cycles` and `best_cycles`.  With `cycles = 1` and
`best_cycles = 2` the code adds `best_cycles / cycles = 2 > 1` to α of the
selected arm: starting from the prior `α = 1`, the arm ends at `α = 3`,
so a reward of `2` was applied, refuting `r ∈ (0, 1]` as stated. -/
theorem contextualBandit_reward_not_in_unit_interval :
    (((ContextualBandit.new ["a", "b"]).update_with_performance
        ⟨0⟩ 0 1 2).bandits SizeBucket.Tiny).successes = [3, 1] ∧
    ¬ (((3 : ℚ) - 1) ≤ 1) := by
  constructor
  · norm_num [ContextualBandit.update_with_performance, ContextualBandit.new,
      VariantBandit.update_with_performance, VariantBandit.new,
      OptimizationFeatures.size_bucket, SizeBucket.from_size,
      List.replicate, List.modify, List.modifyHead]
  · norm_num

/-- **C6 amended**: whenever `cycles > 0`, `update_with_performance`
computes the reward `r = best_cycles / cycles` (which lies in `(0, 1]`
provided `0 < best_cycles ≤ cycles`, the intended use where `best_cycles`
is the fastest observed time), adds `r` to the selected bucket's arm α and
`1 - r` to its β, and leaves every other arm, the selection counters, and
every other bucket's bandit unchanged. -/
theorem contextualBandit_update_with_performance_spec
    (cb : ContextualBandit) (ctx : OptimizationFeatures)
    (arm cycles best_cycles : Nat)
    (harm : arm < (cb.bandits ctx.size_bucket).num_variants)
    (hbest : 0 < best_cycles) (hle : best_cycles ≤ cycles) :
    let r : ℚ := (best_cycles : ℚ) / (cycles : ℚ)
    let b := cb.bandits ctx.size_bucket
    let cb' := cb.update_with_performance ctx arm cycles best_cycles
    let b' := cb'.bandits ctx.size_bucket
    0 < r ∧ r ≤ 1 ∧
    b'.successes[arm]? = b.successes[arm]?.map (· + r) ∧
    b'.failures[arm]? = b.failures[arm]?.map (· + (1 - r)) ∧
    (∀ j, j ≠ arm → b'.successes[j]? = b.successes[j]? ∧
      b'.failures[j]? = b.failures[j]?) ∧
    b'.selections = b.selections ∧
    b'.num_variants = b.num_variants ∧
    (∀ bk, bk ≠ ctx.size_bucket → cb'.bandits bk = cb.bandits bk) := by
  intro r b cb' b'
  have hcyc : 0 < cycles := lt_of_lt_of_le hbest hle
  have hrpos : 0 < r := by
    apply div_pos <;> exact_mod_cast (by omega)
  have hrle : r ≤ 1 := by
    rw [div_le_one (by exact_mod_cast hcyc)]
    exact_mod_cast hle
  have hb' : b' = b.update_with_performance arm cycles best_cycles := by
    show (cb.update_with_performance ctx arm cycles best_cycles).bandits
        ctx.size_bucket = _
    simp [ContextualBandit.update_with_performance]
  have hratio :
      b.update_with_performance arm cycles best_cycles =
        { b with
          successes := b.successes.modify (· + r) arm
          failures := b.failures.modify (· + (1 - r)) arm } := by
    unfold VariantBandit.update_with_performance
    rw [if_neg (not_le.mpr harm), if_pos hcyc]
  refine ⟨hrpos, hrle, ?_, ?_, ?_, ?_, ?_, ?_⟩
  · rw [hb', hratio]
    simp [List.getElem?_modify]
  · rw [hb', hratio]
    simp [List.getElem?_modify]
  · intro j hj
    rw [hb', hratio]
    constructor <;> simp [List.getElem?_modify, (Ne.symm hj)]
  · rw [hb', hratio]
  · rw [hb', hratio]
  · intro bk hbk
    show (cb.update_with_performance ctx arm cycles best_cycles).bandits bk = _
    simp [ContextualBandit.update_with_performance, hbk]

/-! ## Theorems for C1 -/

set_option maxRecDepth 100000 in
set_option maxHeartbeats 4000000 in
/-- **C1 counterexample**: the SIMD-vectorization pass (level 3) does not
preserve program semantics.  For `exVecProg` — a terminating program whose
loop stores `2 * A[i]` into `C[i]` — compilation at level 0 leaves the
program intact and it returns `2`, while level 3 vectorizes the loop into
`C[i..i+3] = A[i..i+3] + B[i..i+3]` (the pattern matcher never checks that
the `Add` actually sums the two loads) and the program returns `6`. -/
theorem optimizer_not_semantics_preserving :
    (optimize_program 20 0 exVecProg).map (fun p => interpMain p 2000) =
      .ok (some 2) ∧
    (optimize_program 20 3 exVecProg).map (fun p => interpMain p 2000) =
      .ok (some 6) := by
  exact ⟨rfl, rfl⟩

/-- The pass pipeline behaves identically at levels 0 and 1: the `≥ 3` and
`≥ 2` gates are both closed. -/
theorem optimize_function_step_level01 (f : Function) :
    optimize_function_step 0 f = optimize_function_step 1 f := rfl

/-- The fixed-point driver behaves identically at levels 0 and 1. -/
theorem optimize_function_level01 (n : Nat) :
    ∀ f, optimize_function n 0 f = optimize_function n 1 f := by
  induction n with
  | zero => intro f; rfl
  | succ n ih =>
    intro f
    show (do
        let (f5, changed) ← optimize_function_step 0 f
        if changed then optimize_function n 0 f5 else .ok f5) =
      (do
        let (f5, changed) ← optimize_function_step 1 f
        if changed then optimize_function n 1 f5 else .ok f5)
    rw [← optimize_function_step_level01]
    cases optimize_function_step 0 f with
    | error e => rfl
    | ok pr =>
      obtain ⟨f5, c⟩ := pr
      cases c with
      | false => rfl
      | true => simpa using ih f5

/-- **C1 amended**: optimization levels 0 and 1 run exactly the same
passes, so `Optimizer::optimize_program` produces identical programs
(hence identical observable outputs) for `k ∈ {0, 1}`; the loop-unrolling
pass (level ≥ 2) and in particular the SIMD-vectorization pass (level ≥ 3)
are *not* semantics-preserving in general: vectorization rewrites any
accepted Load/Load/Add/Store/increment loop into `C[i] = A[i] + B[i]`
even when the scalar body computed something else, as the counterexample
program `exVecProg` shows. -/
theorem optimize_program_level0_eq_level1 (fuel : Nat) (p : Program) :
    optimize_program fuel 0 p = optimize_program fuel 1 p := by
  unfold optimize_program
  have : p.functions.mapM (optimize_function fuel 0) =
      p.functions.mapM (optimize_function fuel 1) := by
    induction p.functions with
    | nil => rfl
    | cons f fs ih =>
      simp only [List.mapM_cons, optimize_function_level01, ih]
  rw [this]

/-! ## Theorems for C7 -/

/-- **C7** (`constant_folding`): the `Mov r, Imm k₁ ; Add r, Imm k₂ →
Mov r, Imm (k₁+k₂)` fuse fires (second conjunct), but the immediate
propagation into the next use — promised both by the spec and by the
function's own doc comment (`Also: Mov R, Imm(A) ; Mov R2, R -> Mov R2,
Imm(A) (Constant Propagation)`) — is not implemented: a function where it
would fire is returned unchanged with `changed = false` (first
conjunct). -/
theorem constant_folding_no_propagation :
    constant_folding exPropFunc = .ok (exPropFunc, false) ∧
    constant_folding exFuseFunc =
      .ok ({ exFuseFunc with instructions := [
        ⟨.Mov, some (.Reg 0), some (.Imm 5), none⟩,
        ⟨.Ret, none, none, none⟩ ] }, true) := by
  exact ⟨rfl, rfl⟩

/-- Witness for C6 amended: fresh two-arm contextual bandit, Tiny bucket,
arm 0, `cycles = 4`, `best_cycles = 2`: reward `1/2 ∈ (0,1]`. -/
theorem contextualBandit_update_with_performance_spec_witness :
    let cb := ContextualBandit.new ["a", "b"]
    let ctx : OptimizationFeatures := ⟨0⟩
    let r : ℚ := (2 : ℚ) / (4 : ℚ)
    let b := cb.bandits ctx.size_bucket
    let cb' := cb.update_with_performance ctx 0 4 2
    let b' := cb'.bandits ctx.size_bucket
    0 < r ∧ r ≤ 1 ∧
    b'.successes[0]? = b.successes[0]?.map (· + r) ∧
    b'.failures[0]? = b.failures[0]?.map (· + (1 - r)) ∧
    (∀ j, j ≠ 0 → b'.successes[j]? = b.successes[j]? ∧
      b'.failures[j]? = b.failures[j]?) ∧
    b'.selections = b.selections ∧
    b'.num_variants = b.num_variants ∧
    (∀ bk, bk ≠ ctx.size_bucket → cb'.bandits bk = cb.bandits bk) :=
  contextualBandit_update_with_performance_spec
    (ContextualBandit.new ["a", "b"]) ⟨0⟩ 0 4 2
    (by decide) (by decide) (by decide)

/-! ## Theorems for C5 -/

/-- Membership is preserved by the stable insertion step. -/
theorem mem_insertByStart (x a : Interval) :
    ∀ l : List Interval, x ∈ insertByStart a l ↔ x = a ∨ x ∈ l := by
  intro l
  induction l with
  | nil => simp [insertByStart]
  | cons b bs ih =>
    show x ∈ (if b.start ≤ a.start
      then b :: insertByStart a bs else a :: b :: bs) ↔ _
    split_ifs with hle
    · simp only [List.mem_cons, ih]
      tauto
    · simp [List.mem_cons]

/-- Membership is preserved by the stable sort. -/
theorem mem_sortByStart (x : Interval) (l : List Interval) :
    x ∈ sortByStart l ↔ x ∈ l := by
  suffices h : ∀ (l acc : List Interval),
      (x ∈ l.foldl (fun acc a => insertByStart a acc) acc ↔
        x ∈ acc ∨ x ∈ l) by
    rw [sortByStart, h]
    simp
  intro l
  induction l with
  | nil => intro acc; simp
  | cons a as ih =>
    intro acc
    rw [List.foldl_cons, ih, mem_insertByStart]
    simp only [List.mem_cons]
    tauto

/-- A single loop-correction step never decreases the interval end. -/
theorem extendEnd_ge (s : Nat) :
    ∀ (be : List (Nat × Nat)) (e : Nat), e ≤ extendEnd be s e := by
  intro be
  induction be with
  | nil => intro e; simp [extendEnd]
  | cons p rest ih =>
    intro e
    show e ≤ extendEnd rest s
      (if s ≤ p.1 ∧ p.1 ≤ e then (if e < p.2 then p.2 else e) else e)
    have hstep : e ≤
        (if s ≤ p.1 ∧ p.1 ≤ e then (if e < p.2 then p.2 else e) else e) := by
      split_ifs <;> omega
    exact hstep.trans (ih _)

/-- If the interval `[s, e]` covers the head of a back edge in the list,
the fold extends its end to at least that edge's tail. -/
theorem extendEnd_pending (s : Nat) :
    ∀ (be : List (Nat × Nat)) (e h t : Nat), (h, t) ∈ be → s ≤ h → h ≤ e →
      t ≤ extendEnd be s e := by
  intro be
  induction be with
  | nil => intro e h t hmem; simp at hmem
  | cons p rest ih =>
    intro e h t hmem hsh hhe
    show t ≤ extendEnd rest s
      (if s ≤ p.1 ∧ p.1 ≤ e then (if e < p.2 then p.2 else e) else e)
    rcases List.mem_cons.mp hmem with heq | hmem'
    · subst heq
      rw [if_pos ⟨hsh, hhe⟩]
      have h1 : t ≤ (if e < t then t else e) := by split_ifs <;> omega
      exact h1.trans (extendEnd_ge s rest _)
    · have hstep : e ≤
          (if s ≤ p.1 ∧ p.1 ≤ e then (if e < p.2 then p.2 else e) else e) := by
        split_ifs <;> omega
      exact ih _ h t hmem' hsh (hhe.trans hstep)

/-- If no back-edge head is covered by `[s, e0]`, the fold is the
identity. -/
theorem extendEnd_no_edge (s e0 : Nat) :
    ∀ (be : List (Nat × Nat)), (∀ p ∈ be, ¬(s ≤ p.1 ∧ p.1 ≤ e0)) →
      extendEnd be s e0 = e0 := by
  intro be
  induction be with
  | nil => intro _; rfl
  | cons p rest ih =>
    intro hne
    show extendEnd rest s
      (if s ≤ p.1 ∧ p.1 ≤ e0 then (if e0 < p.2 then p.2 else e0) else e0) = e0
    rw [if_neg (hne p (List.mem_cons_self p rest))]
    exact ih (fun q hq => hne q (List.mem_cons_of_mem p hq))

/-- **C5**: (1) for every interval of `liveness_analysis` and every
backward branch `(h, t)`, if the operand is live at the target
(`first appearance ≤ h ≤ last appearance`) the interval end is extended
to at least the branch index `t`; (2) an interval live at no back-edge
target is exactly `[first appearance, last appearance]`; (3) `Call`
implicitly uses the integer argument registers 1–4 and defines register
0. -/
theorem liveness_analysis_loop_correction (f : Function) :
    (∀ iv ∈ liveness_analysis f, ∀ p ∈ back_edges f.instructions,
      iv.start ≤ p.1 →
      p.1 ≤ (lastAppearance f.instructions iv.operand).getD 0 →
      p.2 ≤ iv.stop) ∧
    (∀ iv ∈ liveness_analysis f,
      (∀ p ∈ back_edges f.instructions,
        ¬(iv.start ≤ p.1 ∧
          p.1 ≤ (lastAppearance f.instructions iv.operand).getD 0)) →
      iv.start = (firstAppearance f.instructions iv.operand).getD 0 ∧
      iv.stop = (lastAppearance f.instructions iv.operand).getD 0) ∧
    (∀ ins : Instruction, ins.op = .Call →
      ∀ r ≤ 4, Operand.Reg r ∈ instrOperands ins) := by
  refine ⟨?_, ?_, ?_⟩
  · intro iv hmem p hp h1 h2
    rw [liveness_analysis, mem_sortByStart] at hmem
    simp only [List.mem_map] at hmem
    obtain ⟨op, hop, rfl⟩ := hmem
    simp only [mkInterval] at h1 h2 ⊢
    exact extendEnd_pending _ _ _ _ _ hp h1 h2
  · intro iv hmem hnl
    rw [liveness_analysis, mem_sortByStart] at hmem
    simp only [List.mem_map] at hmem
    obtain ⟨op, hop, rfl⟩ := hmem
    constructor
    · simp [mkInterval]
    · simp only [mkInterval] at hnl ⊢
      exact extendEnd_no_edge _ _ _ (fun q hq => hnl q hq)
  · intro ins hcall r hr
    simp only [instrOperands, hcall]
    interval_cases r <;> simp

/-- Witness for C5 at `exLoopFunc`: the interval of `Reg 1` (appearances
0–3) is live at the back-edge target 1 and is extended to the branch
index 4. -/
theorem liveness_analysis_loop_correction_witness :
    4 ≤ (Interval.mk (.Reg 1) 0 4 none).stop :=
  (liveness_analysis_loop_correction exLoopFunc).1
    ⟨.Reg 1, 0, 4, none⟩ (by decide) (1, 4) (by decide) (by decide) (by decide)

/-! ## Theorems for C4 -/

theorem upd_same {α β : Type} [DecidableEq α] (f : α → β) (a : α) (b : β) :
    upd f a b a = b := by simp [upd]

theorem upd_other {α β : Type} [DecidableEq α] (f : α → β) (a : α) (b : β)
    (x : α) (h : x ≠ a) : upd f a b x = f x := by simp [upd, h]

/-- A pre-colored location is always a register matching a low `Reg`. -/
theorem precolored_map_register (ivs : List Interval) (op : Operand)
    (l : Location) (h : precolored_map ivs op = some l) :
    ∃ r, op = .Reg r ∧ l = .Register r ∧ r ≤ 4 := by
  cases op with
  | Reg r =>
    simp only [precolored_map] at h
    split_ifs at h with hc
    · exact ⟨r, rfl, (Option.some_inj.mp h).symm, hc.1⟩
  | Ymm y => simp [precolored_map] at h
  | Imm v => simp [precolored_map] at h
  | Label s => simp [precolored_map] at h

/-- Under pairwise-distinct operands, the operand determines the
interval in the list. -/
theorem operand_inj {ivs : List Interval}
    (hdistinct : ivs.Pairwise (fun a b => a.operand ≠ b.operand)) :
    ∀ iv1 ∈ ivs, ∀ iv2 ∈ ivs, iv1.operand = iv2.operand → iv1 = iv2 := by
  induction ivs with
  | nil => intro iv1 h; simp at h
  | cons x xs ih =>
    intro iv1 h1 iv2 h2 hop
    rcases List.mem_cons.mp h1 with rfl | h1' <;>
      rcases List.mem_cons.mp h2 with rfl | h2'
    · rfl
    · exact absurd hop ((List.pairwise_cons.mp hdistinct).1 iv2 h2')
    · exact absurd hop.symm ((List.pairwise_cons.mp hdistinct).1 iv1 h1')
    · exact ih (List.pairwise_cons.mp hdistinct).2 iv1 h1' iv2 h2' hop

theorem mem_insertNatAsc (x a : Nat) :
    ∀ l : List Nat, x ∈ insertNatAsc a l ↔ x = a ∨ x ∈ l := by
  intro l
  induction l with
  | nil => simp [insertNatAsc]
  | cons b bs ih =>
    show x ∈ (if b ≤ a then b :: insertNatAsc a bs else a :: b :: bs) ↔ _
    split_ifs with hle
    · simp only [List.mem_cons, ih]
      tauto
    · simp [List.mem_cons]

theorem mem_sortNat (x : Nat) (l : List Nat) :
    x ∈ sortNat l ↔ x ∈ l := by
  suffices h : ∀ (l acc : List Nat),
      (x ∈ l.foldl (fun acc a => insertNatAsc a acc) acc ↔
        x ∈ acc ∨ x ∈ l) by
    rw [sortNat, h]
    simp
  intro l
  induction l with
  | nil => intro acc; simp
  | cons a as ih =>
    intro acc
    rw [List.foldl_cons, ih, mem_insertNatAsc]
    simp only [List.mem_cons]
    tauto

/-- Loop invariant of the `allocate_registers` scan, with `done` the
processed prefix and `todo` the remaining suffix of the interval list. -/
structure AllocInv (ivs done todo : List Interval) (st : AllocState) :
    Prop where
  mapB : ∀ iv1 ∈ ivs, ∀ iv2 ∈ ivs, iv1.operand ≠ iv2.operand → ∀ r,
    st.map iv1.operand = some (.Register r) →
    st.map iv2.operand = some (.Register r) → NoOv iv1 iv2
  activeA : ∀ a ∈ st.active, ∃ iv ∈ done, iv.operand = a.operand ∧
    a.start = iv.start ∧ a.stop = iv.stop ∧
    st.map a.operand = a.assigned_loc ∧
    ∃ r, a.assigned_loc = some (.Register r)
  activeD : st.active.Pairwise (fun x y => x.operand ≠ y.operand)
  statusC : ∀ iv ∈ ivs, ∀ r, st.map iv.operand = some (.Register r) →
    (∃ a ∈ st.active, a.operand = iv.operand) ∨
    (∀ nx ∈ todo, iv.stop ≤ nx.start) ∨
    (iv ∈ todo ∧ precolored_map ivs iv.operand = some (.Register r))
  mapE : ∀ op, (∀ iv ∈ done, iv.operand ≠ op) →
    st.map op = precolored_map ivs op

/-- The invariant holds at the start of the scan. -/
theorem allocInv_init (ivs : List Interval) :
    AllocInv ivs [] ivs (initAllocState ivs) := by
  refine ⟨?_, ?_, ?_, ?_, ?_⟩
  · intro iv1 _ iv2 _ hne r h1 h2
    obtain ⟨r1, hop1, hl1, _⟩ := precolored_map_register _ _ _ h1
    obtain ⟨r2, hop2, hl2, _⟩ := precolored_map_register _ _ _ h2
    exact absurd (hop1.trans (by
      cases hl1; cases hl2; rw [hop2])) hne
  · intro a ha; simp [initAllocState] at ha
  · simp [initAllocState]
  · intro iv hmem r h
    exact Or.inr (Or.inr ⟨hmem, h⟩)
  · intro op _; rfl


/-- Preservation of the allocator invariant by the spill-the-current-
interval outcome. -/
theorem spillCurrent_preserves
    (ivs done rest : List Interval) (cur : Interval) (off : Int)
    (st : AllocState)
    (hsorted : ivs.Pairwise (fun a b => a.start ≤ b.start))
    (hdistinct : ivs.Pairwise (fun a b => a.operand ≠ b.operand))
    (heq : ivs = done ++ cur :: rest)
    (hinv : AllocInv ivs done (cur :: rest) st)
    (hm : st.map cur.operand = none) :
    AllocInv ivs (done ++ [cur]) rest
      (spillCurrent off st (expireActive st.active cur) cur) := by
  have hcur_mem : cur ∈ ivs := by
    rw [heq]; exact List.mem_append_right _ (List.mem_cons_self _ _)
  have hsort' := hsorted
  rw [heq, List.pairwise_append] at hsort'
  obtain ⟨hsortD, hsortCR, hsortX⟩ := hsort'
  have hcr : ∀ x ∈ rest, cur.start ≤ x.start :=
    (List.pairwise_cons.mp hsortCR).1
  set A := expireActive st.active cur with hA
  have hAmem : ∀ a ∈ A, a ∈ st.active ∧ cur.start < a.stop := by
    intro a ha
    rw [hA, expireActive, List.mem_filter] at ha
    exact ⟨ha.1, by simpa using ha.2⟩
  have hAiv : ∀ a ∈ A, ∃ iv ∈ done, iv.operand = a.operand ∧
      a.start = iv.start ∧ a.stop = iv.stop ∧
      st.map a.operand = a.assigned_loc ∧
      ∃ r, a.assigned_loc = some (.Register r) :=
    fun a ha => hinv.activeA a (hAmem a ha).1
  have hAopne : ∀ a ∈ A, a.operand ≠ cur.operand := by
    intro a ha heqop
    obtain ⟨iv0, _, _, _, _, hmc, r0, hr0⟩ := hAiv a ha
    rw [heqop, hm] at hmc
    rw [hr0] at hmc
    exact absurd hmc (by simp)
  have hdroppedCur : ∀ a ∈ st.active, a ∉ A → ∀ iv ∈ ivs,
      iv.operand = a.operand → iv.stop ≤ cur.start := by
    intro a ha hnA iv hiv hop
    have hstop : ¬ cur.start < a.stop := by
      intro hlt
      exact hnA (by
        rw [hA, expireActive, List.mem_filter]
        exact ⟨ha, by simpa using hlt⟩)
    obtain ⟨iv0, hiv0, hop0, _, hstop0, _, _⟩ := hinv.activeA a ha
    have hiveq : iv = iv0 := operand_inj hdistinct iv hiv iv0
      (by rw [heq]; exact List.mem_append_left _ hiv0) (by rw [hop, hop0])
    rw [hiveq, ← hstop0]
    omega
  refine ⟨?_, ?_, ?_, ?_, ?_⟩
  · -- mapB
    intro iv1 h1 iv2 h2 hne r hm1 hm2
    by_cases e1 : iv1.operand = cur.operand
    · rw [show (spillCurrent off st A cur).map = upd st.map cur.operand
          (some (.Spill (spillOffset off (st.stack_slot_count + 1)))) from rfl,
        e1, upd_same] at hm1
      exact absurd hm1 (by simp)
    · by_cases e2 : iv2.operand = cur.operand
      · rw [show (spillCurrent off st A cur).map = upd st.map cur.operand
            (some (.Spill (spillOffset off (st.stack_slot_count + 1)))) from rfl,
          e2, upd_same] at hm2
        exact absurd hm2 (by simp)
      · rw [show (spillCurrent off st A cur).map = upd st.map cur.operand
            (some (.Spill (spillOffset off (st.stack_slot_count + 1)))) from rfl,
          upd_other _ _ _ _ e1] at hm1
        rw [show (spillCurrent off st A cur).map = upd st.map cur.operand
            (some (.Spill (spillOffset off (st.stack_slot_count + 1)))) from rfl,
          upd_other _ _ _ _ e2] at hm2
        exact hinv.mapB iv1 h1 iv2 h2 hne r hm1 hm2
  · -- activeA
    intro a ha
    have haA : a ∈ A := ha
    obtain ⟨iv, hiv, h1, h2, h3, h4, h5⟩ := hAiv a haA
    refine ⟨iv, List.mem_append_left _ hiv, h1, h2, h3, ?_, h5⟩
    rw [show (spillCurrent off st A cur).map = upd st.map cur.operand
        (some (.Spill (spillOffset off (st.stack_slot_count + 1)))) from rfl,
      upd_other _ _ _ _ (hAopne a haA)]
    exact h4
  · -- activeD
    exact hinv.activeD.filter _
  · -- statusC
    intro iv hiv r hmap
    by_cases ec : iv.operand = cur.operand
    · rw [show (spillCurrent off st A cur).map = upd st.map cur.operand
          (some (.Spill (spillOffset off (st.stack_slot_count + 1)))) from rfl,
        ec, upd_same] at hmap
      exact absurd hmap (by simp)
    · rw [show (spillCurrent off st A cur).map = upd st.map cur.operand
          (some (.Spill (spillOffset off (st.stack_slot_count + 1)))) from rfl,
        upd_other _ _ _ _ ec] at hmap
      rcases hinv.statusC iv hiv r hmap with ⟨a, ha, hopa⟩ | hexp | ⟨hmemT, hpre⟩
      · by_cases haA : a ∈ A
        · exact Or.inl ⟨a, haA, hopa⟩
        · exact Or.inr (Or.inl (fun nx hnx =>
            (hdroppedCur a ha haA iv hiv hopa.symm).trans (hcr nx hnx)))
      · exact Or.inr (Or.inl (fun nx hnx => hexp nx (List.mem_cons_of_mem _ hnx)))
      · rcases List.mem_cons.mp hmemT with hivcur | hrest
        · exact absurd (by rw [hivcur]) ec
        · exact Or.inr (Or.inr ⟨hrest, hpre⟩)
  · -- mapE
    intro op hop
    have hopc : cur.operand ≠ op :=
      hop cur (List.mem_append_right _ (List.mem_singleton_self _))
    rw [show (spillCurrent off st A cur).map = upd st.map cur.operand
        (some (.Spill (spillOffset off (st.stack_slot_count + 1)))) from rfl,
      upd_other _ _ _ _ (Ne.symm hopc)]
    exact hinv.mapE op (fun iv hiv => hop iv (List.mem_append_left _ hiv))

/-- A processed interval's active copy expires exactly when its stop is
not beyond the current start; a dropped copy certifies expiry of its
interval. -/
theorem allocStep_preserves
    (ivs done rest : List Interval) (cur : Interval)
    (pool : List Nat) (off : Int) (st st' : AllocState)
    (hsorted : ivs.Pairwise (fun a b => a.start ≤ b.start))
    (hdistinct : ivs.Pairwise (fun a b => a.operand ≠ b.operand))
    (heq : ivs = done ++ cur :: rest)
    (hinv : AllocInv ivs done (cur :: rest) st)
    (hstep : allocStep ivs pool off st cur = .ok st') :
    AllocInv ivs (done ++ [cur]) rest st' := by
  have hcur_mem : cur ∈ ivs := by
    rw [heq]; exact List.mem_append_right _ (List.mem_cons_self _ _)
  have hsort' := hsorted
  rw [heq, List.pairwise_append] at hsort'
  obtain ⟨hsortD, hsortCR, hsortX⟩ := hsort'
  have hdist' := hdistinct
  rw [heq, List.pairwise_append] at hdist'
  obtain ⟨hdistD, hdistCR, hdistX⟩ := hdist'
  have hdc : ∀ d ∈ done, d.start ≤ cur.start := fun d hd =>
    hsortX d hd cur (List.mem_cons_self _ _)
  have hcr : ∀ x ∈ rest, cur.start ≤ x.start :=
    (List.pairwise_cons.mp hsortCR).1
  have hdopc : ∀ d ∈ done, d.operand ≠ cur.operand := fun d hd =>
    hdistX d hd cur (List.mem_cons_self _ _)
  have hmemD : ∀ iv ∈ done, iv ∈ ivs := fun iv hiv => by
    rw [heq]; exact List.mem_append_left _ hiv
  have hmemR : ∀ iv ∈ rest, iv ∈ ivs := fun iv hiv => by
    rw [heq]; exact List.mem_append_right _ (List.mem_cons_of_mem _ hiv)
  set A := expireActive st.active cur with hA
  have hAmem : ∀ a ∈ A, a ∈ st.active ∧ cur.start < a.stop := by
    intro a ha
    rw [hA, expireActive, List.mem_filter] at ha
    exact ⟨ha.1, by simpa using ha.2⟩
  have hApair : A.Pairwise (fun x y => x.operand ≠ y.operand) :=
    hinv.activeD.filter _
  -- a dropped active certifies that its interval already expired
  have hdroppedCur : ∀ a ∈ st.active, a ∉ A → ∀ iv ∈ ivs,
      iv.operand = a.operand → iv.stop ≤ cur.start := by
    intro a ha hnA iv hiv hop
    have hstop : ¬ cur.start < a.stop := by
      intro hlt
      exact hnA (by
        rw [hA, expireActive, List.mem_filter]
        exact ⟨ha, by simpa using hlt⟩)
    obtain ⟨iv0, hiv0, hop0, _, hstop0, _, _⟩ := hinv.activeA a ha
    have hiveq : iv = iv0 :=
      operand_inj hdistinct iv hiv iv0 (hmemD iv0 hiv0) (by rw [hop, hop0])
    rw [hiveq, ← hstop0]
    omega
  have hdropped : ∀ a ∈ st.active, a ∉ A → ∀ iv ∈ ivs,
      iv.operand = a.operand → ∀ nx ∈ rest, iv.stop ≤ nx.start :=
    fun a ha hnA iv hiv hop nx hnx =>
      (hdroppedCur a ha hnA iv hiv hop).trans (hcr nx hnx)
  -- interval behind a retained active copy
  have hAiv : ∀ a ∈ A, ∃ iv ∈ done, iv.operand = a.operand ∧
      a.start = iv.start ∧ a.stop = iv.stop ∧
      st.map a.operand = a.assigned_loc ∧
      ∃ r, a.assigned_loc = some (.Register r) :=
    fun a ha => hinv.activeA a (hAmem a ha).1
  rw [allocStep] at hstep
  cases hm : st.map cur.operand with
  | some loc =>
    simp only [hm] at hstep
    have hloc : st.map cur.operand = precolored_map ivs cur.operand :=
      hinv.mapE cur.operand (fun iv hiv => hdopc iv hiv)
    have hlocpre : precolored_map ivs cur.operand = some loc := by
      rw [← hloc, hm]
    obtain ⟨rc, hopc, hlocc, _⟩ :=
      precolored_map_register ivs cur.operand loc hlocpre
    cases hstep
    refine ⟨?_, ?_, ?_, ?_, ?_⟩
    · exact fun iv1 h1 iv2 h2 hne r => hinv.mapB iv1 h1 iv2 h2 hne r
    · intro a ha
      rcases List.mem_append.mp ha with haA | hac
      · obtain ⟨iv, hiv, h1, h2, h3, h4, h5⟩ := hAiv a haA
        exact ⟨iv, List.mem_append_left _ hiv, h1, h2, h3, h4, h5⟩
      · have hac' : a = { cur with assigned_loc := some loc } := by
          simpa using hac
        subst hac'
        refine ⟨cur, List.mem_append_right _ (List.mem_singleton_self _),
          rfl, rfl, rfl, hm, ⟨rc, by rw [hlocc]⟩⟩
    · rw [List.pairwise_append]
      refine ⟨hApair, by simp, ?_⟩
      intro a haA b hb
      have hb' : b = { cur with assigned_loc := some loc } := by simpa using hb
      subst hb'
      obtain ⟨iv, hiv, hopiv, _⟩ := hAiv a haA
      show a.operand ≠ cur.operand
      rw [← hopiv]
      exact hdopc iv hiv
    · intro iv hiv r hmap
      rcases hinv.statusC iv hiv r hmap with ⟨a, ha, hopa⟩ | hexp | ⟨hmemT, hpre⟩
      · by_cases haA : a ∈ A
        · exact Or.inl ⟨a, List.mem_append_left _ haA, hopa⟩
        · exact Or.inr (Or.inl (hdropped a ha haA iv hiv hopa.symm))
      · exact Or.inr (Or.inl (fun nx hnx => hexp nx (List.mem_cons_of_mem _ hnx)))
      · rcases List.mem_cons.mp hmemT with hivcur | hrest
        · refine Or.inl ⟨{ cur with assigned_loc := some loc },
            List.mem_append_right _ (List.mem_singleton_self _), ?_⟩
          rw [hivcur]
        · exact Or.inr (Or.inr ⟨hrest, hpre⟩)
    · intro op hop
      exact hinv.mapE op (fun iv hiv => hop iv (List.mem_append_left _ hiv))
  | none =>
    simp only [hm] at hstep
    have hAopne : ∀ a ∈ A, a.operand ≠ cur.operand := by
      intro a ha heqop
      obtain ⟨iv0, _, _, _, _, hmc, r0, hr0⟩ := hAiv a ha
      rw [heqop, hm] at hmc
      rw [hr0] at hmc
      exact absurd hmc (by simp)
    cases hfree : (freeRegs ivs pool A cur).head? with
    | some phys =>
      simp only [hfree] at hstep
      have hphysmem : phys ∈ freeRegs ivs pool A cur :=
        List.mem_of_mem_head? (by rw [hfree]; rfl)
      rw [freeRegs, mem_sortNat, List.mem_filter] at hphysmem
      obtain ⟨h1, h2⟩ := hphysmem
      obtain ⟨hpool, hnuse⟩ := List.mem_filter.mp h1
      have hnotused : phys ∉ usedRegs A := by simpa using hnuse
      have hnopre : ∀ f ∈ pre_colored ivs phys,
          ¬(cur.start < f.stop ∧ f.start < cur.stop) := by
        intro f hf hcontra
        rw [decide_eq_true_eq] at h2
        exact h2 (by
          rw [List.any_eq_true]
          exact ⟨f, hf, by simpa using hcontra⟩)
      have hnoactive : ∀ a ∈ A, a.assigned_loc ≠ some (.Register phys) := by
        intro a ha hcontra
        apply hnotused
        rw [usedRegs, List.mem_filterMap]
        exact ⟨a, ha, by rw [hcontra]⟩
      have key : ∀ iv2 ∈ ivs, iv2.operand ≠ cur.operand →
          st.map iv2.operand = some (.Register phys) → NoOv cur iv2 := by
        intro iv2 h2' hne hmap2
        rcases hinv.statusC iv2 h2' phys hmap2 with
          ⟨a, ha, hopa⟩ | hexp | ⟨hmemT, hpre⟩
        · by_cases haA : a ∈ A
          · obtain ⟨iv0, hiv0, hop0, hs0, hst0, hmc, r0, hr0⟩ := hAiv a haA
            exact absurd (by rw [← hmc, hopa, hmap2]) (hnoactive a haA)
          · exact Or.inr (hdroppedCur a ha haA iv2 h2' hopa.symm)
        · exact Or.inr (hexp cur (List.mem_cons_self _ _))
        · have hfmem : iv2 ∈ pre_colored ivs phys := by
            rw [pre_colored, List.mem_filter]
            exact ⟨h2', by rw [decide_eq_true_eq]; exact hpre⟩
          have := hnopre iv2 hfmem
          rw [NoOv]
          omega
      cases hstep
      refine ⟨?_, ?_, ?_, ?_, ?_⟩
      · intro iv1 hh1 iv2 hh2 hne r hm1 hm2
        by_cases e1 : iv1.operand = cur.operand
        · have hiv1 : iv1 = cur := operand_inj hdistinct iv1 hh1 cur hcur_mem e1
          rw [show (⟨upd st.map cur.operand (some (.Register phys)),
              A ++ [{ cur with assigned_loc := some (.Register phys) }],
              st.stack_slot_count⟩ : AllocState).map =
            upd st.map cur.operand (some (.Register phys)) from rfl] at hm1 hm2
          rw [e1, upd_same] at hm1
          have hr : r = phys := by
            have := Option.some_inj.mp hm1
            cases this
            rfl
          have e2 : iv2.operand ≠ cur.operand := by
            rw [← e1]; exact fun hcon => hne (hcon.symm ▸ rfl)
          rw [upd_other _ _ _ _ e2] at hm2
          subst hr
          have := key iv2 hh2 e2 hm2
          rw [hiv1]
          exact this
        · by_cases e2 : iv2.operand = cur.operand
          · have hiv2 : iv2 = cur := operand_inj hdistinct iv2 hh2 cur hcur_mem e2
            rw [show (⟨upd st.map cur.operand (some (.Register phys)),
                A ++ [{ cur with assigned_loc := some (.Register phys) }],
                st.stack_slot_count⟩ : AllocState).map =
              upd st.map cur.operand (some (.Register phys)) from rfl] at hm1 hm2
            rw [e2, upd_same] at hm2
            have hr : r = phys := by
              have := Option.some_inj.mp hm2
              cases this
              rfl
            rw [upd_other _ _ _ _ e1] at hm1
            subst hr
            have := key iv1 hh1 e1 hm1
            rw [hiv2]
            rw [NoOv] at this ⊢
            omega
          · rw [show (⟨upd st.map cur.operand (some (.Register phys)),
                A ++ [{ cur with assigned_loc := some (.Register phys) }],
                st.stack_slot_count⟩ : AllocState).map =
              upd st.map cur.operand (some (.Register phys)) from rfl] at hm1 hm2
            rw [upd_other _ _ _ _ e1] at hm1
            rw [upd_other _ _ _ _ e2] at hm2
            exact hinv.mapB iv1 hh1 iv2 hh2 hne r hm1 hm2
      · intro a ha
        rcases List.mem_append.mp ha with haA | hac
        · obtain ⟨iv, hiv, hh1, hh2, hh3, hh4, hh5⟩ := hAiv a haA
          refine ⟨iv, List.mem_append_left _ hiv, hh1, hh2, hh3, ?_, hh5⟩
          show upd st.map cur.operand (some (.Register phys)) a.operand = _
          rw [upd_other _ _ _ _ (hAopne a haA)]
          exact hh4
        · have hac' : a = { cur with assigned_loc := some (.Register phys) } := by
            simpa using hac
          subst hac'
          refine ⟨cur, List.mem_append_right _ (List.mem_singleton_self _),
            rfl, rfl, rfl, ?_, ⟨phys, rfl⟩⟩
          show upd st.map cur.operand (some (.Register phys)) cur.operand = _
          rw [upd_same]
      · rw [List.pairwise_append]
        refine ⟨hApair, by simp, ?_⟩
        intro a haA b hb
        have hb' : b = { cur with assigned_loc := some (.Register phys) } := by
          simpa using hb
        subst hb'
        exact hAopne a haA
      · intro iv hiv r hmap
        by_cases ec : iv.operand = cur.operand
        · exact Or.inl ⟨{ cur with assigned_loc := some (.Register phys) },
            List.mem_append_right _ (List.mem_singleton_self _), ec.symm⟩
        · rw [show (⟨upd st.map cur.operand (some (.Register phys)),
              A ++ [{ cur with assigned_loc := some (.Register phys) }],
              st.stack_slot_count⟩ : AllocState).map =
            upd st.map cur.operand (some (.Register phys)) from rfl,
            upd_other _ _ _ _ ec] at hmap
          rcases hinv.statusC iv hiv r hmap with
            ⟨a, ha, hopa⟩ | hexp | ⟨hmemT, hpre⟩
          · by_cases haA : a ∈ A
            · exact Or.inl ⟨a, List.mem_append_left _ haA, hopa⟩
            · exact Or.inr (Or.inl (hdropped a ha haA iv hiv hopa.symm))
          · exact Or.inr (Or.inl (fun nx hnx =>
              hexp nx (List.mem_cons_of_mem _ hnx)))
          · rcases List.mem_cons.mp hmemT with hivcur | hrest
            · exact absurd (by rw [hivcur]) ec
            · exact Or.inr (Or.inr ⟨hrest, hpre⟩)
      · intro op hop
        have hopc : cur.operand ≠ op :=
          hop cur (List.mem_append_right _ (List.mem_singleton_self _))
        show upd st.map cur.operand (some (.Register phys)) op = _
        rw [upd_other _ _ _ _ (Ne.symm hopc)]
        exact hinv.mapE op (fun iv hiv => hop iv (List.mem_append_left _ hiv))
    | none =>
      simp only [hfree] at hstep
      cases hcand : spill_candidate A with
      | none =>
        simp only [hcand] at hstep
        cases hstep
        exact spillCurrent_preserves ivs done rest cur off st
          hsorted hdistinct heq hinv hm
      | some cidx =>
        simp only [hcand] at hstep
        cases hvic : A[cidx]? with
        | none =>
          simp only [hvic] at hstep
          cases hstep
          exact spillCurrent_preserves ivs done rest cur off st
            hsorted hdistinct heq hinv hm
        | some victim =>
          simp only [hvic] at hstep
          by_cases hms : victim.stop > cur.stop
          · simp only [if_pos hms] at hstep
            cases hvloc : victim.assigned_loc with
            | none => simp only [hvloc] at hstep; exact absurd hstep (by simp)
            | some vloc =>
              cases vloc with
              | Spill o =>
                simp only [hvloc] at hstep
                exact absurd hstep (by simp)
              | Register reg =>
                simp only [hvloc] at hstep
                have hvicA : victim ∈ A :=
                  List.mem_iff_getElem?.mpr ⟨cidx, hvic⟩
                obtain ⟨hcidxlt, hAget⟩ :
                    ∃ h : cidx < A.length, A[cidx] = victim := by
                  rcases List.getElem?_eq_some.mp hvic with ⟨h, hg⟩
                  exact ⟨h, hg⟩
                obtain ⟨ivV, hivV, hopV, hsV, hstV, hmcV, rV, hrV⟩ :=
                  hAiv victim hvicA
                have hmcVreg : st.map victim.operand =
                    some (.Register reg) := by rw [hmcV, hvloc]
                have hvicne : victim.operand ≠ cur.operand := hAopne victim hvicA
                have hivVmem : ivV ∈ ivs := hmemD ivV hivV
                -- victim's register does not alias any other holder
                have keyE : ∀ iv2 ∈ ivs, iv2.operand ≠ cur.operand →
                    iv2.operand ≠ victim.operand →
                    st.map iv2.operand = some (.Register reg) →
                    NoOv cur iv2 := by
                  intro iv2 hh2 hne2 hnev hmap2
                  have hopne : ivV.operand ≠ iv2.operand := by
                    rw [hopV]; exact fun hcon => hnev (hcon.symm)
                  have hBV := hinv.mapB ivV hivVmem iv2 hh2 hopne reg
                    (by rw [hopV]; exact hmcVreg) hmap2
                  have hdcV : ivV.start ≤ cur.start := hdc ivV hivV
                  have hstV' : cur.stop < ivV.stop := by rw [← hstV]; omega
                  rw [NoOv] at hBV ⊢
                  omega
                -- membership in the erased active list
                have hmemErase : ∀ a ∈ A, a.operand ≠ victim.operand →
                    a ∈ A.eraseIdx cidx := by
                  intro a ha hne
                  obtain ⟨i, hi, hgeti⟩ := List.getElem_of_mem ha
                  refine List.mem_eraseIdx_iff_getElem.mpr ⟨i, hi, ?_, hgeti⟩
                  intro hicon
                  subst hicon
                  have h1 : A[i]? = some a := by
                    rw [List.getElem?_eq_getElem hi, hgeti]
                  rw [hvic] at h1
                  exact hne (congrArg Interval.operand
                    (Option.some_inj.mp h1)).symm
                have hAvicop : ∀ a ∈ A.eraseIdx cidx,
                    a.operand ≠ victim.operand := by
                  intro a ha heqop
                  obtain ⟨i, hi, hne_i, hgeti⟩ :=
                    List.mem_eraseIdx_iff_getElem.mp ha
                  have hpg := List.pairwise_iff_getElem.mp hApair
                  rcases Nat.lt_or_ge i cidx with hlt | hge
                  · exact (hpg i cidx hi hcidxlt hlt)
                      (by rw [hgeti, hAget, heqop])
                  · have hlt' : cidx < i := by omega
                    exact (hpg cidx i hcidxlt hi hlt')
                      (by rw [hgeti, hAget, heqop])
                cases hstep
                refine ⟨?_, ?_, ?_, ?_, ?_⟩
                · intro iv1 hh1 iv2 hh2 hne r hm1 hm2
                  replace hm1 : upd (upd st.map victim.operand
                      (some (.Spill (spillOffset off (st.stack_slot_count + 1)))))
                      cur.operand (some (.Register reg)) iv1.operand =
                      some (.Register r) := hm1
                  replace hm2 : upd (upd st.map victim.operand
                      (some (.Spill (spillOffset off (st.stack_slot_count + 1)))))
                      cur.operand (some (.Register reg)) iv2.operand =
                      some (.Register r) := hm2
                  by_cases e1 : iv1.operand = cur.operand
                  · have hiv1 : iv1 = cur :=
                      operand_inj hdistinct iv1 hh1 cur hcur_mem e1
                    rw [e1, upd_same] at hm1
                    have hr : r = reg := by
                      have := Option.some_inj.mp hm1
                      cases this
                      rfl
                    subst hr
                    have e2 : iv2.operand ≠ cur.operand := by
                      rw [← e1]; exact fun hcon => hne (hcon.symm ▸ rfl)
                    rw [upd_other _ _ _ _ e2] at hm2
                    by_cases ev2 : iv2.operand = victim.operand
                    · rw [ev2, upd_same] at hm2
                      exact absurd hm2 (by simp)
                    · rw [upd_other _ _ _ _ ev2] at hm2
                      have := keyE iv2 hh2 e2 ev2 hm2
                      rw [hiv1]
                      exact this
                  · by_cases e2 : iv2.operand = cur.operand
                    · have hiv2 : iv2 = cur :=
                        operand_inj hdistinct iv2 hh2 cur hcur_mem e2
                      rw [e2, upd_same] at hm2
                      have hr : r = reg := by
                        have := Option.some_inj.mp hm2
                        cases this
                        rfl
                      subst hr
                      rw [upd_other _ _ _ _ e1] at hm1
                      by_cases ev1 : iv1.operand = victim.operand
                      · rw [ev1, upd_same] at hm1
                        exact absurd hm1 (by simp)
                      · rw [upd_other _ _ _ _ ev1] at hm1
                        have := keyE iv1 hh1 e1 ev1 hm1
                        rw [hiv2, NoOv] at *
                        omega
                    · rw [upd_other _ _ _ _ e1] at hm1
                      rw [upd_other _ _ _ _ e2] at hm2
                      by_cases ev1 : iv1.operand = victim.operand
                      · rw [ev1, upd_same] at hm1
                        exact absurd hm1 (by simp)
                      · by_cases ev2 : iv2.operand = victim.operand
                        · rw [ev2, upd_same] at hm2
                          exact absurd hm2 (by simp)
                        · rw [upd_other _ _ _ _ ev1] at hm1
                          rw [upd_other _ _ _ _ ev2] at hm2
                          exact hinv.mapB iv1 hh1 iv2 hh2 hne r hm1 hm2
                · intro a ha
                  rcases List.mem_append.mp ha with haE | hac
                  · have haA : a ∈ A :=
                      (List.eraseIdx_sublist A cidx).subset haE
                    obtain ⟨iv, hiv, hh1, hh2, hh3, hh4, hh5⟩ := hAiv a haA
                    refine ⟨iv, List.mem_append_left _ hiv, hh1, hh2, hh3, ?_, hh5⟩
                    show upd (upd st.map victim.operand
                        (some (.Spill (spillOffset off (st.stack_slot_count + 1)))))
                      cur.operand (some (.Register reg)) a.operand = _
                    rw [upd_other _ _ _ _ (hAopne a haA),
                      upd_other _ _ _ _ (hAvicop a haE)]
                    exact hh4
                  · have hac' : a =
                        { cur with assigned_loc := some (.Register reg) } := by
                      simpa using hac
                    subst hac'
                    refine ⟨cur,
                      List.mem_append_right _ (List.mem_singleton_self _),
                      rfl, rfl, rfl, ?_, ⟨reg, rfl⟩⟩
                    show upd (upd st.map victim.operand
                        (some (.Spill (spillOffset off (st.stack_slot_count + 1)))))
                      cur.operand (some (.Register reg)) cur.operand = _
                    rw [upd_same]
                · rw [List.pairwise_append]
                  refine ⟨hApair.sublist (List.eraseIdx_sublist A cidx),
                    by simp, ?_⟩
                  intro a haE b hb
                  have hb' : b =
                      { cur with assigned_loc := some (.Register reg) } := by
                    simpa using hb
                  subst hb'
                  exact hAopne a ((List.eraseIdx_sublist A cidx).subset haE)
                · intro iv hiv r hmap
                  by_cases ec : iv.operand = cur.operand
                  · exact Or.inl
                      ⟨{ cur with assigned_loc := some (.Register reg) },
                        List.mem_append_right _ (List.mem_singleton_self _),
                        ec.symm⟩
                  · replace hmap : upd (upd st.map victim.operand
                        (some (.Spill (spillOffset off (st.stack_slot_count + 1)))))
                        cur.operand (some (.Register reg)) iv.operand =
                        some (.Register r) := hmap
                    rw [upd_other _ _ _ _ ec] at hmap
                    by_cases ev : iv.operand = victim.operand
                    · rw [ev, upd_same] at hmap
                      exact absurd hmap (by simp)
                    · rw [upd_other _ _ _ _ ev] at hmap
                      rcases hinv.statusC iv hiv r hmap with
                        ⟨a, ha, hopa⟩ | hexp | ⟨hmemT, hpre⟩
                      · by_cases haA : a ∈ A
                        · have hane : a.operand ≠ victim.operand := by
                            rw [hopa]; exact ev
                          exact Or.inl ⟨a,
                            List.mem_append_left _ (hmemErase a haA hane), hopa⟩
                        · exact Or.inr (Or.inl
                            (hdropped a ha haA iv hiv hopa.symm))
                      · exact Or.inr (Or.inl (fun nx hnx =>
                          hexp nx (List.mem_cons_of_mem _ hnx)))
                      · rcases List.mem_cons.mp hmemT with hivcur | hrest
                        · exact absurd (by rw [hivcur]) ec
                        · exact Or.inr (Or.inr ⟨hrest, hpre⟩)
                · intro op hop
                  have hopc : cur.operand ≠ op :=
                    hop cur (List.mem_append_right _ (List.mem_singleton_self _))
                  have hopv : victim.operand ≠ op := by
                    rw [← hopV]
                    exact hop ivV (List.mem_append_left _ hivV)
                  show upd (upd st.map victim.operand
                      (some (.Spill (spillOffset off (st.stack_slot_count + 1)))))
                    cur.operand (some (.Register reg)) op = _
                  rw [upd_other _ _ _ _ (Ne.symm hopc),
                    upd_other _ _ _ _ (Ne.symm hopv)]
                  exact hinv.mapE op
                    (fun iv hiv => hop iv (List.mem_append_left _ hiv))
          · simp only [if_neg hms] at hstep
            cases hstep
            exact spillCurrent_preserves ivs done rest cur off st
              hsorted hdistinct heq hinv hm


/-- The invariant propagates along the whole scan, yielding pairwise
non-aliasing of the final register assignment. -/
theorem allocate_loop_nonaliasing
    (ivs : List Interval) (pool : List Nat) (off : Int)
    (hsorted : ivs.Pairwise (fun a b => a.start ≤ b.start))
    (hdistinct : ivs.Pairwise (fun a b => a.operand ≠ b.operand)) :
    ∀ (todo done : List Interval) (st : AllocState),
      ivs = done ++ todo → AllocInv ivs done todo st →
      ∀ stF, List.foldlM (allocStep ivs pool off) st todo = .ok stF →
        ∀ iv1 ∈ ivs, ∀ iv2 ∈ ivs, iv1.operand ≠ iv2.operand → ∀ r,
          stF.map iv1.operand = some (.Register r) →
          stF.map iv2.operand = some (.Register r) → NoOv iv1 iv2 := by
  intro todo
  induction todo with
  | nil =>
    intro done st heq hinv stF hfold
    have hst : st = stF := by
      have : (.ok st : Except Aborted AllocState) = .ok stF := hfold
      exact Except.ok.inj this
    subst hst
    exact hinv.mapB
  | cons cur rest ih =>
    intro done st heq hinv stF hfold
    rw [List.foldlM_cons] at hfold
    cases hstep : allocStep ivs pool off st cur with
    | error e =>
      rw [hstep] at hfold
      exact absurd hfold (by simp [Bind.bind, Except.bind])
    | ok st' =>
      rw [hstep] at hfold
      have hfold' : List.foldlM (allocStep ivs pool off) st' rest = .ok stF := by
        simpa [Bind.bind, Except.bind] using hfold
      exact ih (done ++ [cur]) st' (by rw [heq]; simp)
        (allocStep_preserves ivs done rest cur pool off st st'
          hsorted hdistinct heq hinv hstep) stF hfold'

/-- **C4**: for every interval list that is sorted by start with pairwise
distinct operands (as `liveness_analysis` produces), two distinct
intervals that `allocate_registers` maps to the same physical register
have ranges overlapping at most at an exact `stop = start` boundary —
including between pre-colored intervals (`Reg 0..4`) and ordinarily
allocated ones. -/
theorem allocate_registers_non_aliasing
    (intervals : List Interval) (pool : List Nat) (offset_start : Int)
    (hsorted : intervals.Pairwise (fun a b => a.start ≤ b.start))
    (hdistinct : intervals.Pairwise (fun a b => a.operand ≠ b.operand))
    (m : Operand → Option Location) (slots : Nat)
    (halloc : allocate_registers intervals pool offset_start =
      .ok (m, slots)) :
    ∀ iv1 ∈ intervals, ∀ iv2 ∈ intervals, iv1.operand ≠ iv2.operand →
    ∀ r, m iv1.operand = some (.Register r) →
      m iv2.operand = some (.Register r) →
      iv1.stop ≤ iv2.start ∨ iv2.stop ≤ iv1.start := by
  rw [allocate_registers] at halloc
  cases hfold : List.foldlM (allocStep intervals pool offset_start)
      (initAllocState intervals) intervals with
  | error e =>
    rw [hfold] at halloc
    exact absurd halloc (by simp [Except.map])
  | ok stF =>
    rw [hfold] at halloc
    have hmm : m = stF.map := by
      have h1 : (stF.map, stF.stack_slot_count) = (m, slots) := by
        have := halloc
        simp only [Except.map] at this
        exact Except.ok.inj this
      exact (Prod.mk.injEq _ _ _ _ ▸ h1).1.symm
    subst hmm
    intro iv1 h1 iv2 h2 hne r hr1 hr2
    exact allocate_loop_nonaliasing intervals pool offset_start
      hsorted hdistinct intervals [] (initAllocState intervals) rfl
      (allocInv_init intervals) stF hfold iv1 h1 iv2 h2 hne r hr1 hr2

/-- Witness for C4: with pool `[1]`, both intervals of `exAllocIvs` are
assigned register 1; the theorem certifies their ranges are disjoint. -/
theorem allocate_registers_non_aliasing_witness :
    (Interval.mk (.Reg 5) 0 1 none).stop ≤
      (Interval.mk (.Reg 6) 2 3 none).start ∨
    (Interval.mk (.Reg 6) 2 3 none).stop ≤
      (Interval.mk (.Reg 5) 0 1 none).start := by
  obtain ⟨m, slots, hall, h5, h6⟩ :
      ∃ m slots, allocate_registers exAllocIvs [1] 40 = .ok (m, slots) ∧
        m (.Reg 5) = some (.Register 1) ∧
        m (.Reg 6) = some (.Register 1) :=
    ⟨_, _, rfl, rfl, rfl⟩
  exact allocate_registers_non_aliasing exAllocIvs [1] 40
    (by decide) (by decide) m slots hall
    ⟨.Reg 5, 0, 1, none⟩ (by decide) ⟨.Reg 6, 2, 3, none⟩ (by decide)
    (by decide) 1 h5 h6

/-! ## Theorems for C2, C3 and C8 -/

/-- **C3**: every OS request ever issued by the dual-mapped memory module
(construction under any outcome of the four fallible calls, instruction
cache flush, destruction) changes no mapping's protection (`mprotect`
never appears) and requests no mapping that is both writable and
executable; a successful construction creates exactly two mappings, the
first `PROT_READ|PROT_WRITE` and the second `PROT_READ|PROT_EXEC`, of
the one shared backing object.  Hence no virtual address of a live
`DualMappedMemory` is simultaneously writable and executable. -/
theorem dual_mapped_memory_wx (size : Nat) (o : OsOracle) :
    (∀ e ∈ (DualMappedMemory.new_trace size o).1 ++
        DualMappedMemory.flush_icache_trace ++
        DualMappedMemory.drop_trace,
      (∀ p, e ≠ .mprotect p) ∧
      (∀ sz p sh, e = .mmap sz p sh → p.write = false ∨ p.exec = false)) ∧
    ((DualMappedMemory.new_trace size o).2 = true →
      (DualMappedMemory.new_trace size o).1.filterMap mmapProt =
        [PROT_RW, PROT_RX]) := by
  constructor
  · intro e he
    have hall : ((DualMappedMemory.new_trace size o).1 ++
        DualMappedMemory.flush_icache_trace ++
        DualMappedMemory.drop_trace).all eventOk = true := by
      obtain ⟨m, ft, rw_, rx⟩ := o
      cases m <;> cases ft <;> cases rw_ <;> cases rx <;> rfl
    have hok : eventOk e = true := List.all_eq_true.mp hall e he
    refine ⟨?_, ?_⟩
    · intro p hep
      rw [hep] at hok
      simp [eventOk] at hok
    · intro sz p sh hee
      rw [hee] at hok
      simp only [eventOk, Bool.not_eq_true'] at hok
      rcases Bool.and_eq_false_iff.mp hok with h | h
      · exact Or.inl h
      · exact Or.inr h
  · intro hsucc
    obtain ⟨m, ft, rw_, rx⟩ := o
    cases m <;> cases ft <;> cases rw_ <;> cases rx <;>
      simp_all [DualMappedMemory.new_trace, mmapProt]

/-- Witness for C3: the successful construction trace at size 4096 maps
exactly `[RW, RX]`. -/
theorem dual_mapped_memory_wx_witness :
    (DualMappedMemory.new_trace 4096 ⟨true, true, true, true⟩).1.filterMap
      mmapProt = [PROT_RW, PROT_RX] :=
  (dual_mapped_memory_wx 4096 ⟨true, true, true, true⟩).2 (by decide)


/-- **C2**: for every function that `compile_program` successfully
lowers, the emitted `JitBuilder` call sequence is the prologue — which
binds `fn_<name>`, saves the frame, always reserves a positive stack
region, and initializes the fuel-counter register 5 to the fixed budget
1,000,000 — followed by the instruction lowering and the per-function
fuel-exhaustion epilogue, which binds `fuel_fail_<name>` and moves the
sentinel −999 into the return register 0 before unwinding; and the
lowering of every loop-header label (target of a backward branch)
decrements register 5 and branches to the fuel-exhaustion epilogue on
zero. -/
theorem compile_function_fuel_mechanism (f : Function) (evs : List Event)
    (hc : compile_function f = .ok evs) :
    ∃ ssz body, 0 < ssz ∧
      evs = prologueEvents f.name ssz ++ body ++ failEvents f.name ssz ∧
      prologueEvents f.name ssz =
        [.bindLabel ("fn_" ++ f.name), .prologue 0, .push_reg 7,
         .push_reg 8, .push_reg 9, .push_reg 10, .push_reg 5,
         .add_rsp (-(ssz : Int)), .mov_reg_imm 5 1000000] ∧
      failEvents f.name ssz =
        [.bindLabel ("fuel_fail_" ++ f.name), .mov_reg_imm 0 (-999),
         .add_rsp (ssz : Int), .pop_reg 5, .pop_reg 10, .pop_reg 9,
         .pop_reg 8, .pop_reg 7, .epilogue] ∧
      (∀ (gm : Operand → Option Location) (ivs : List Interval)
          (idx : Nat) (ins : Instruction) (name : String),
        ins.op = .Label → ins.dest = some (.Label name) →
        name ∈ loop_headers f.instructions →
        lower_full gm ivs ssz (loop_headers f.instructions)
          ("fuel_fail_" ++ f.name) idx ins =
          .ok [.bindLabel name, .dec_reg 5,
            .jz ("fuel_fail_" ++ f.name)]) := by
  have hpos : ∀ slots : Nat, 0 < stackSizeOf slots := by
    intro slots
    simp only [stackSizeOf]
    split_ifs with h
    · omega
    · omega
  rw [compile_function] at hc
  cases h1 : allocate_registers
      ((liveness_analysis f).filter
        (fun iv => match iv.operand with | .Reg _ => true | _ => false))
      [1, 2, 3, 4, 7, 8, 11, 12, 13] 40 with
  | error e =>
    rw [h1] at hc
    exact absurd hc (by simp [Bind.bind, Except.bind])
  | ok pr1 =>
    rw [h1] at hc
    obtain ⟨gm, slots⟩ := pr1
    simp only [Bind.bind, Except.bind] at hc
    cases h2 : allocate_registers
        ((liveness_analysis f).filter
          (fun iv => match iv.operand with | .Ymm _ => true | _ => false))
        (List.range 16) 0 with
    | error e =>
      rw [h2] at hc
      exact absurd hc (by simp [Bind.bind, Except.bind])
    | ok pr2 =>
      rw [h2] at hc
      obtain ⟨ym, yslots⟩ := pr2
      simp only [Bind.bind, Except.bind] at hc
      cases h3 : f.instructions.enum.mapM
          (fun (p : Nat × Instruction) =>
            lower_full gm (liveness_analysis f) (stackSizeOf slots)
              (loop_headers f.instructions) ("fuel_fail_" ++ f.name)
              p.1 p.2) with
      | error e =>
        rw [h3] at hc
        exact absurd hc (by simp [Bind.bind, Except.bind])
      | ok body =>
        rw [h3] at hc
        simp only [Bind.bind, Except.bind] at hc
        have hevs : evs = prologueEvents f.name (stackSizeOf slots) ++
            body.flatten ++ failEvents f.name (stackSizeOf slots) := by
          exact (Except.ok.inj hc).symm
        refine ⟨stackSizeOf slots, body.flatten, hpos slots, hevs, ?_, ?_, ?_⟩
        · rw [prologueEvents, if_pos (hpos slots)]
          rfl
        · rw [failEvents, if_pos (hpos slots)]
          rfl
        · intro gm' ivs' idx ins name hop hdest hmem
          rw [lower_full]
          have hpre : (match ins.op, ins.dest with
              | .Label, some (.Label name) =>
                [Event.bindLabel name] ++
                  (if name ∈ loop_headers f.instructions then
                    [Event.dec_reg 5,
                     Event.jz ("fuel_fail_" ++ f.name)] else [])
              | _, _ => ([] : List Event)) =
              [Event.bindLabel name, Event.dec_reg 5,
               Event.jz ("fuel_fail_" ++ f.name)] := by
            rw [hop, hdest]
            simp [hmem]
          have hmain : lower_instr gm' ivs' (stackSizeOf slots) idx ins =
              .ok [] := by
            rw [lower_instr, hop]
          rw [hpre, hmain]
          rfl

/-- Witness for C2 at `exLoopFunc` (one backward branch to label `l`):
compilation succeeds and the theorem yields the decomposition plus the
`dec`/`jz` lowering of the loop-header label. -/
theorem compile_function_fuel_mechanism_witness :
    ∃ evs ssz body, compile_function exLoopFunc = .ok evs ∧ 0 < ssz ∧
      evs = prologueEvents exLoopFunc.name ssz ++ body ++
        failEvents exLoopFunc.name ssz ∧
      lower_full (fun _ => none) [] ssz
        (loop_headers exLoopFunc.instructions)
        ("fuel_fail_" ++ exLoopFunc.name) 1
        ⟨.Label, some (.Label "l"), none, none⟩ =
        .ok [.bindLabel "l", .dec_reg 5,
          .jz ("fuel_fail_" ++ exLoopFunc.name)] := by
  obtain ⟨evs, hc⟩ : ∃ evs, compile_function exLoopFunc = .ok evs :=
    ⟨_, rfl⟩
  obtain ⟨ssz, body, h0, h1, _, _, h4⟩ :=
    compile_function_fuel_mechanism exLoopFunc evs hc
  exact ⟨evs, ssz, body, hc, h0, h1,
    h4 (fun _ => none) [] 1 ⟨.Label, some (.Label "l"), none, none⟩ "l"
      rfl rfl (by decide)⟩

/-- **C8 counterexample**: the compile path *aborts* (panics) rather than
returning an error value on a program whose `main` has an empty
instruction list — `constant_folding` underflows `len() - 1` and indexes
out of bounds. -/
theorem compile_program_panics_on_empty :
    Compiler.compile_program exEmptyProg 0 20 = .error .panic := rfl

/-- **C8 amended**: the compile path panics both on a function with an
empty instruction list (underflow/index in `constant_folding`) and on
`LoadArg`/`SetArg` with argument index above 3 (the explicit
`panic!("Max 4 args")`), contrary to the never-aborting error policy. -/
theorem compile_path_panic_cases :
    Compiler.compile_program exEmptyProg 0 20 = .error .panic ∧
    Compiler.compile_program exLoadArg4Prog 0 20 = .error .panic := by
  exact ⟨rfl, rfl⟩

end NanoForge
